import Mathlib

/-!
# Verification of the chroma-bridge incremental sync engine

Shallow embedding of the repository's core components:
* `incident.py` — `ChromaDbTicketProcessor` (checkpoint store, source fetcher,
  ticket transform, sync orchestrator),
* `document.py` — `PDFProcessor.split_text` / `store_chunks`,
* `app.py` — the checkpoint get/set endpoints.

Python strings are embedded as `String` (or `List Char` for the chunker,
where character-level reasoning is needed), Python `dict` metadata as
association lists, exceptions as `Except String`, and the vector store as an
explicit list of collections threaded through each operation.
-/

namespace ChromaBridge

/-- A metadata value as stored in a collection's metadata map: Python values
occurring in this codebase are strings, ints and `None`. -/
inductive MVal where
  | s (v : String)
  | i (v : Int)
  | nil
deriving DecidableEq, Repr

/-- A collection's user-metadata map (insertion-ordered association list,
first binding wins on lookup, mirroring a Python dict with unique keys). -/
abbrev Metadata := List (String × MVal)

/-- Dict lookup: `metadata.get(key)`. -/
def mlookup : Metadata → String → Option MVal
  | [], _ => none
  | (k, v) :: rest, key => if k = key then some v else mlookup rest key

/-- Set one key in a metadata map, replacing an existing binding in place or
appending a new one (Python dict assignment). -/
def setKey : Metadata → String → MVal → Metadata
  | [], k, v => [(k, v)]
  | (k1, v1) :: rest, k, v =>
    if k1 = k then (k, v) :: rest else (k1, v1) :: setKey rest k v

/-- Modelled from the spec: the vector store's `modifyMetadata` primitive
(chromadb `Collection.modify`), whose implementation is not part of this
repository.  Per §4.1 the save path "rewrites *only* the watermark key in the
metadata map; must not overwrite or drop sibling metadata keys", so the
primitive merges the supplied map into the collection's existing metadata. -/
def modifyMeta (m : Metadata) (updates : Metadata) : Metadata :=
  updates.foldl (fun acc kv => setKey acc kv.1 kv.2) m

/-- One stored collection: a name, its metadata map, and its contents
(parallel lists of ids, documents and per-document metadata, as passed to
`collection.add`). -/
structure Collection where
  name : String
  metadata : Metadata
  ids : List String
  docs : List String
  docMetas : List Metadata
deriving DecidableEq, Repr

/-- The vector store: the list of existing collections. -/
abbrev DB := List Collection

/-- Find a collection by name (`client.get_collection`). -/
def findColl : DB → String → Option Collection
  | [], _ => none
  | c :: rest, n => if c.name = n then some c else findColl rest n

/-- Replace the collection named `n` by `c` (in-place mutation of the stored
collection object). -/
def updateColl (db : DB) (n : String) (c : Collection) : DB :=
  db.map (fun c0 => if c0.name = n then c else c0)

/-! ## Timestamps: `datetime.strptime(s, "%Y-%m-%d %H:%M:%S")` -/

/-- A parsed wall-clock timestamp (`datetime` restricted to the fields the
format `%Y-%m-%d %H:%M:%S` populates). -/
structure DT where
  year : Nat
  month : Nat
  day : Nat
  hour : Nat
  minute : Nat
  second : Nat
deriving DecidableEq, Repr

/-- Chronological comparison key: strictly monotone in lexicographic field
order for in-range field values (month ≤ 12, day ≤ 31, hour ≤ 23,
minute, second ≤ 59). -/
def dtVal (d : DT) : Nat :=
  ((((d.year * 13 + d.month) * 32 + d.day) * 24 + d.hour) * 60 + d.minute) * 60 + d.second

/-- Gregorian leap year, as `datetime` checks it. -/
def isLeap (y : Nat) : Bool :=
  (y % 4 = 0 && y % 100 != 0) || y % 400 = 0

/-- Day count of a month, as validated by the `datetime` constructor. -/
def daysInMonth (y m : Nat) : Nat :=
  if m = 2 then (if isLeap y then 29 else 28)
  else if m = 4 || m = 6 || m = 9 || m = 11 then 30
  else 31

def digitVal (c : Char) : Nat := c.toNat - 48

def digitsToNat (l : List Char) : Nat :=
  l.foldl (fun acc c => acc * 10 + digitVal c) 0

/-- Take the leading run of decimal digits. -/
def spanDigits (l : List Char) : List Char × List Char :=
  (l.takeWhile Char.isDigit, l.dropWhile Char.isDigit)

/-- Consume the format's literal separator.  `_strptime` turns a whitespace
character in the format into `\s+`, so the date/time separator matches one or
more whitespace characters; the `-` and `:` literals match exactly once. -/
def eatSep (sep : Char) (l : List Char) : Option (List Char) :=
  if sep = ' ' then
    match l with
    | c :: rest => if c.isWhitespace then some (rest.dropWhile Char.isWhitespace) else none
    | [] => none
  else
    match l with
    | c :: rest => if c = sep then some rest else none
    | [] => none

/-- One 1–2 digit numeric field of the format (`%m`, `%d`, `%H`, `%M`, `%S`):
returns its value and the remaining input, or `none` if no digit run of
length 1 or 2 is present. -/
def eatField2 (l : List Char) : Option (Nat × List Char) :=
  let (ds, rest) := spanDigits l
  if ds.length = 1 || ds.length = 2 then some (digitsToNat ds, rest) else none

/-- `datetime.strptime(s, "%Y-%m-%d %H:%M:%S")`, returning `some` exactly
when the Python call succeeds: `%Y` is four digits, the remaining fields are
one or two digits, field separators are literal (whitespace matching one or
more whitespace characters), the whole string must be consumed, and the
`datetime` constructor's range checks apply (year ≥ 1, 1 ≤ month ≤ 12,
1 ≤ day ≤ days-in-month, hour ≤ 23, minute ≤ 59, second ≤ 59). -/
def parseDT (s : String) : Option DT :=
  let l := s.data
  let (ys, r1) := spanDigits l
  if ys.length ≠ 4 then none else
  match eatSep '-' r1 with
  | none => none
  | some r2 =>
  match eatField2 r2 with
  | none => none
  | some (mo, r3) =>
  match eatSep '-' r3 with
  | none => none
  | some r4 =>
  match eatField2 r4 with
  | none => none
  | some (d, r5) =>
  match eatSep ' ' r5 with
  | none => none
  | some r6 =>
  match eatField2 r6 with
  | none => none
  | some (h, r7) =>
  match eatSep ':' r7 with
  | none => none
  | some r8 =>
  match eatField2 r8 with
  | none => none
  | some (mi, r9) =>
  match eatSep ':' r9 with
  | none => none
  | some r10 =>
  match eatField2 r10 with
  | none => none
  | some (sec, r11) =>
  if r11 ≠ [] then none else
  let y := digitsToNat ys
  if 1 ≤ y ∧ 1 ≤ mo ∧ mo ≤ 12 ∧ 1 ≤ d ∧ d ≤ daysInMonth y mo ∧ h ≤ 23 ∧ mi ≤ 59 ∧ sec ≤ 59 then
    some ⟨y, mo, d, h, mi, sec⟩
  else none

/-- Strict chronological order on two timestamp strings: both parse and the
first denotes an earlier instant.  `false` when either fails to parse. -/
def tsLtB (a b : String) : Bool :=
  match parseDT a, parseDT b with
  | some da, some db1 => dtVal da < dtVal db1
  | _, _ => false

/-- Non-strict variant of `tsLtB`. -/
def tsLeB (a b : String) : Bool :=
  match parseDT a, parseDT b with
  | some da, some db1 => dtVal da ≤ dtVal db1
  | _, _ => false

/-- Zero-pad a numeral to width 2 (`strftime` field padding). -/
def pad2 (n : Nat) : String :=
  if n < 10 then "0" ++ toString n else toString n

/-- Zero-pad a numeral to width 4. -/
def pad4 (n : Nat) : String :=
  if n < 10 then "000" ++ toString n
  else if n < 100 then "00" ++ toString n
  else if n < 1000 then "0" ++ toString n
  else toString n

/-- `dt.strftime("%Y-%m-%dT%H:%M:%SZ")` (the body of `to_iso8601`). -/
def formatIso (d : DT) : String :=
  pad4 d.year ++ "-" ++ pad2 d.month ++ "-" ++ pad2 d.day ++ "T" ++
  pad2 d.hour ++ ":" ++ pad2 d.minute ++ ":" ++ pad2 d.second ++ "Z"

deriving instance DecidableEq for Except

/-! ## `incident.py` — source fetcher -/

/-- The ServiceNow base URL (`SNOW_URL`); an opaque environment constant. -/
def snowUrl : String := "https://servicenow.example"

/-- A raw record of the ServiceNow response's `result` array.  Each field is
optional: `ticket.get(field)` yields `None` when the key is absent. -/
structure RawTicket where
  number : Option String
  short_description : Option String
  description : Option String
  close_notes : Option String
  sys_created_on : Option String
deriving DecidableEq, Repr

/-- The HTTP response of the one bounded query `requests.get(...)` issues:
a status code plus the decoded `result` array (empty for non-JSON bodies,
matching `response.json().get('result', [])`). -/
structure Response where
  status_code : Nat
  result : List RawTicket
deriving DecidableEq, Repr

/-- `extract_number`: `re.search(r'\d+', ticket_number)` — the first maximal
run of decimal digits, as an integer; `-1` when the identifier contains no
digit. -/
def extract_number (ticket_number : String) : Int :=
  go ticket_number.data
where
  go : List Char → Int
    | [] => -1
    | c :: cs =>
      if c.isDigit then Int.ofNat (digitsToNat (c :: cs.takeWhile Char.isDigit))
      else go cs

/-- Python's `max(x :: xs, key := f)`: the first element attaining the
maximal key (a later element replaces the current one only on a strictly
greater key). -/
def pymax (f : α → Int) : α → List α → α
  | a, [] => a
  | a, b :: bs => pymax f (if f a < f b then b else a) bs

/-- Line 98 of `incident.py`: the "latest" ticket of a non-empty batch is
the maximum of the batch under `extract_number` of its identifier
(`x.get('number', '')`). -/
def latestTicket (t0 : RawTicket) (ts : List RawTicket) : RawTicket :=
  pymax (fun x => extract_number (x.number.getD "")) t0 ts

/-- `datetime.strptime` applied to `ticket.get('sys_created_on')`: a missing
field raises `TypeError`, an unparseable value raises `ValueError`. -/
def pyStrptime (o : Option String) : Except String DT :=
  match o with
  | none => .error "TypeError: strptime() argument 1 must be str, not None"
  | some s =>
    match parseDT s with
    | some dt => .ok dt
    | none => .error ("ValueError: time data " ++ s ++ " does not match format")

/-- The normalized record built by the mapping loop of
`fetch_tickets_from_servicenow` (its `mapped_ticket` dict). -/
structure MappedTicket where
  ticket_number : Option String
  title : Option String
  query : Option String
  answer : Option String
  url : String
  created : Nat
  opened_at : String
deriving DecidableEq, Repr

/-- The loop body mapping one raw ticket (raises if `sys_created_on` is
missing or unparseable; `created` carries the chronological key of the parsed
timestamp, `opened_at` its ISO-8601 rendering via `to_iso8601`). -/
def mapTicket (t : RawTicket) : Except String MappedTicket := do
  let dt ← pyStrptime t.sys_created_on
  .ok { ticket_number := t.number
        title := t.short_description
        query := t.description
        answer := t.close_notes
        url := snowUrl ++ "/incident_list.do?"
        created := dtVal dt
        opened_at := formatIso dt }

/-- The mapping loop over the whole batch; the first failing record aborts
the call with its exception. -/
def mapTickets : List RawTicket → Except String (List MappedTicket)
  | [] => .ok []
  | t :: ts => do
    let m ← mapTicket t
    let ms ← mapTickets ts
    .ok (m :: ms)

/-- Python's `str.split(sep)` for a single-character separator (keeps empty
parts, `"".split(sep) = [""]`). -/
def splitChar (sep : Char) : List Char → List (List Char)
  | [] => [[]]
  | c :: cs =>
    match splitChar sep cs with
    | [] => [[]]
    | h :: t => if c = sep then [] :: h :: t else (c :: h) :: t

/-- The 200-status branch of `fetch_tickets_from_servicenow`: an empty result
is the valid no-new-records outcome; otherwise the latest ticket is selected
by derived numeric ordinal and every record is mapped. -/
def fetch200 (result : List RawTicket) :
    Except String (List MappedTicket × Option RawTicket) :=
  match result with
  | [] => .ok ([], none)
  | t0 :: ts => do
    let latest := latestTicket t0 ts
    let mapped ← mapTickets (t0 :: ts)
    .ok (mapped, some latest)

/-- `fetch_tickets_from_servicenow(after_datetime)` given the source's
response.  First `after_datetime.split(' ')` is unpacked into exactly a date
part and a time part (any other shape raises `ValueError`); a non-200
response yields `([], None)` without raising. -/
def fetch_tickets_from_servicenow (after_datetime : String) (response : Response) :
    Except String (List MappedTicket × Option RawTicket) :=
  match splitChar ' ' after_datetime.data with
  | [_date_part, _time_part] =>
    if response.status_code = 200 then fetch200 response.result
    else .ok ([], none)
  | _ => .error "ValueError: unpacking after_datetime.split failed"

/-! ## `incident.py` — transform, store, checkpoint, orchestrator -/

/-- Python's rendering of an optional string inside an f-string: `None`
prints as the text `None`. -/
def pyShow (o : Option String) : String :=
  match o with
  | some s => s
  | none => "None"

/-- Lift an optional string to a stored metadata value (`None` stays null). -/
def mvalOf (o : Option String) : MVal :=
  match o with
  | some s => .s s
  | none => .nil

/-- `prepare_ticket_batches`: one document and one metadata map per ticket,
order-preserving. -/
def prepare_ticket_batches (ticket_data : List MappedTicket) :
    List String × List Metadata :=
  (ticket_data.map (fun t =>
      "Ticket query/question: " ++ pyShow t.query ++ " \n - Ticket answer/solution: " ++ pyShow t.answer),
   ticket_data.map (fun t =>
      [("ticket_number", mvalOf t.ticket_number),
       ("ticket_title", mvalOf t.title),
       ("url", .s t.url),
       ("created", .i (Int.ofNat t.created)),
       ("opened_at", .s t.opened_at)]))

/-- `store_ticket_data`: sequential ids `"0", "1", …` and one bulk
`coll.add`, appending the batch to the collection's contents. -/
def store_ticket_data (coll : Collection) (documents : List String)
    (metadatas : List Metadata) : Collection :=
  let ids := (List.range documents.length).map (fun i => toString i)
  { coll with ids := coll.ids ++ ids
              docs := coll.docs ++ documents
              docMetas := coll.docMetas ++ metadatas }

/-- `save_last_update_time`: store only `last_update_time` in the
collection's user metadata (one `collection.modify` call with the singleton
map). -/
def save_last_update_time (coll : Collection) (latest_time : String) : Collection :=
  { coll with metadata := modifyMeta coll.metadata [("last_update_time", .s latest_time)] }

/-- Lines 157–169 of `sync_tickets`: if `"ticketData"` is among the existing
collection names it is fetched without touching its metadata, otherwise it is
created with the default metadata (cosine similarity plus advisory hints). -/
def acquireTicketColl (db : DB) : DB × Collection :=
  match findColl db "ticketData" with
  | some c => (db, c)
  | none =>
    let c : Collection :=
      { name := "ticketData"
        metadata := [("hnsw:space", .s "cosine"), ("sync_threshold", .i 1000), ("batch_size", .i 100)]
        ids := [], docs := [], docMetas := [] }
    (db ++ [c], c)

/-- `load_last_update_time` combined with the orchestrator's falsy check
(lines 172–178): a missing, `None`, or empty checkpoint value falls back to
the epoch default; a non-string truthy value would make
`after_datetime.split(' ')` raise `AttributeError`. -/
def computeCutoff (coll : Collection) : Except String String :=
  match mlookup coll.metadata "last_update_time" with
  | some (.s t) => .ok (if t = "" then "2000-01-01 00:00:00" else t)
  | some (.i n) =>
    if n = 0 then .ok "2000-01-01 00:00:00"
    else .error "AttributeError: int object has no attribute split"
  | some .nil => .ok "2000-01-01 00:00:00"
  | none => .ok "2000-01-01 00:00:00"

/-- The structured outcome dict of `sync_tickets` (the volatile
`timestamp: now()` field is omitted; `latest_update_time` is present only on
the synced-successfully path and may itself be `None`). -/
structure SyncResult where
  success : Bool
  message : String
  tickets_processed : Nat
  latest_update_time : Option String
deriving DecidableEq, Repr

/-- Observable events of one run, in order of occurrence: a successful
`coll.add` of `n` documents, and a successful checkpoint save of `t`. -/
inductive Event where
  | added (n : Nat)
  | saved (t : String)
deriving DecidableEq, Repr

/-- Failure injections for the effectful steps of a run: the ChromaDB
connection, the bulk `coll.add`, and the `collection.modify` call.  `none`
means the step succeeds. -/
structure Env where
  connect_error : Option String
  response : Response
  add_error : Option String
  modify_error : Option String
deriving DecidableEq, Repr

def errResult (e : String) : SyncResult :=
  { success := false, message := "Error during ticket sync: " ++ e
    tickets_processed := 0, latest_update_time := none }

/-- `sync_tickets`: the whole orchestrator run, returning the final store
state, the structured outcome, and the event trace.  Any exception raised by
a step unwinds to the single `except` handler, keeping every mutation
performed up to that point. -/
def sync_tickets (env : Env) (db : DB) : DB × SyncResult × List Event :=
  match env.connect_error with
  | some e => (db, errResult e, [])
  | none =>
    let db1 := (acquireTicketColl db).1
    let coll := (acquireTicketColl db).2
    match computeCutoff coll with
    | .error e => (db1, errResult e, [])
    | .ok cutoff_time =>
      match fetch_tickets_from_servicenow cutoff_time env.response with
      | .error e => (db1, errResult e, [])
      | .ok (tickets, latest) =>
        match tickets with
        | [] =>
          (db1, { success := true, message := "No new tickets to process"
                  tickets_processed := 0, latest_update_time := none }, [])
        | _ :: _ =>
          let docs := (prepare_ticket_batches tickets).1
          let metas := (prepare_ticket_batches tickets).2
          match env.add_error with
          | some e => (db1, errResult e, [])
          | none =>
            let coll2 := store_ticket_data coll docs metas
            let db2 := updateColl db1 "ticketData" coll2
            let tr := [Event.added docs.length]
            match latest with
            | none => (db2, errResult "AttributeError: NoneType object has no attribute get", tr)
            | some l =>
              let latest_time := l.sys_created_on
              let okResult : Option String → SyncResult := fun lt =>
                { success := true, message := "Tickets synced successfully"
                  tickets_processed := tickets.length, latest_update_time := lt }
              match latest_time with
              | none => (db2, okResult none, tr)
              | some t =>
                if t = "" then (db2, okResult (some ""), tr)
                else
                  match env.modify_error with
                  | some e => (db2, errResult e, tr)
                  | none =>
                    let coll3 := save_last_update_time coll2 t
                    let db3 := updateColl db2 "ticketData" coll3
                    (db3, okResult (some t), tr ++ [Event.saved t])

/-- The checkpoint currently stored for the ticket collection: `none` when
the collection or the key is absent. -/
def cpOf (db : DB) : Option MVal :=
  match findColl db "ticketData" with
  | none => none
  | some c => mlookup c.metadata "last_update_time"

/-! ## External collection primitive and `app.py` endpoints -/

/-- Modelled from the spec: chromadb `client.get_or_create_collection`, whose
implementation is not part of this repository.  Per §4.4: "if a collection
with `name` exists, returns a handle to it UNCHANGED (existing metadata,
including any checkpoint, is preserved — `defaultMetadata` is applied only at
creation time, never as an update). If absent, creates it with the given
embedding capability and `defaultMetadata`."  A call without metadata creates
the collection with an empty metadata map. -/
def get_or_create_collection (db : DB) (name : String) (md : Option Metadata) :
    DB × Collection :=
  match findColl db name with
  | some c => (db, c)
  | none =>
    let c : Collection := { name := name, metadata := md.getD [], ids := [], docs := [], docMetas := [] }
    (db ++ [c], c)

/-- `GET /last-update-ticket-time`: get-or-create the ticket collection
(without metadata) and read the stored watermark value. -/
def get_last_update_time (db : DB) : DB × Option MVal :=
  let db1 := (get_or_create_collection db "ticketData" none).1
  let coll := (get_or_create_collection db "ticketData" none).2
  (db1, mlookup coll.metadata "last_update_time")

/-- Outcome of `POST /update-last-ticket-time`: HTTP 200 with the stored
string, HTTP 400 on a format validation failure, HTTP 500 on any other
exception. -/
inductive UpdateResp where
  | ok (t : String)
  | badRequest
  | serverError (e : String)
deriving DecidableEq, Repr

/-- `POST /update-last-ticket-time`: the payload's timestamp is validated
with `datetime.strptime(new_time, "%Y-%m-%d %H:%M:%S")` before any store
access; only then is the collection fetched (or created, without metadata)
and the watermark saved.  A missing payload field reaches `strptime` as
`None` and raises `TypeError`, which the generic handler maps to HTTP 500. -/
def update_last_update_time (db : DB) (payload : Option String) : DB × UpdateResp :=
  match payload with
  | none => (db, .serverError "TypeError: strptime() argument 1 must be str, not None")
  | some new_time =>
    match parseDT new_time with
    | none => (db, .badRequest)
    | some _ =>
      let db1 := (get_or_create_collection db "ticketData" none).1
      let coll := (get_or_create_collection db "ticketData" none).2
      let coll2 := save_last_update_time coll new_time
      (updateColl db1 "ticketData" coll2, .ok new_time)

/-! ## `document.py` — chunk storage -/

/-- Storage summary returned by `store_chunks`. -/
structure StoreSummary where
  source : String
  chunks_stored : Nat
  collection : String
deriving DecidableEq, Repr

/-- `PDFProcessor.store_chunks`: get-or-create the destination collection
with cosine similarity metadata, then one bulk `collection.add` with ids
`"{source_name}_{i}"` and per-chunk `{"source": source_name}` metadata. -/
def store_chunks (db : DB) (chunks : List String) (source_name : String)
    (collection_name : String) : DB × StoreSummary :=
  let db1 := (get_or_create_collection db collection_name (some [("hnsw:space", .s "cosine")])).1
  let coll := (get_or_create_collection db collection_name (some [("hnsw:space", .s "cosine")])).2
  let ids := (List.range chunks.length).map (fun i => source_name ++ "_" ++ toString i)
  let metadatas := chunks.map (fun _ => ([("source", .s source_name)] : Metadata))
  let coll2 := { coll with ids := coll.ids ++ ids
                           docs := coll.docs ++ chunks
                           docMetas := coll.docMetas ++ metadatas }
  (updateColl db1 collection_name coll2,
   { source := source_name, chunks_stored := chunks.length, collection := collection_name })

/-! ## Basic lemmas about the store operations -/

/-- The ticket collection as created by `sync_tickets`, with its three
configuration metadata keys. -/
def sampleColl : Collection :=
  { name := "ticketData"
    metadata := [("hnsw:space", .s "cosine"), ("sync_threshold", .i 1000), ("batch_size", .i 100)]
    ids := [], docs := [], docMetas := [] }

/-- A pre-existing documentation collection holding a checkpoint-like key. -/
def docColl : Collection :=
  { name := "documentation"
    metadata := [("hnsw:space", .s "cosine"), ("last_update_time", .s "2024-12-31 23:59:59")]
    ids := ["d_0"], docs := ["x"], docMetas := [[("source", .s "d")]] }

/-- The total restriction of `mapTicket` on records whose creation timestamp
is present and parseable: the normalized record it produces. -/
def mapTicketOk (t : RawTicket) : MappedTicket :=
  let dt := (parseDT (t.sys_created_on.getD "")).getD ⟨1, 1, 1, 0, 0, 0⟩
  { ticket_number := t.number
    title := t.short_description
    query := t.description
    answer := t.close_notes
    url := snowUrl ++ "/incident_list.do?"
    created := dtVal dt
    opened_at := formatIso dt }

/-- Three tickets whose numeric ordinals (5, 100, 23) disagree with both the
lexicographic order of their identifiers and their creation order. -/
def inc5 : RawTicket :=
  ⟨some "INC5", some "t5", some "q5", some "a5", some "2025-03-03 03:03:03"⟩

def inc100 : RawTicket :=
  ⟨some "INC100", some "t100", some "q100", some "a100", some "2025-01-01 01:01:01"⟩

def inc23 : RawTicket :=
  ⟨some "INC23", some "t23", some "q23", some "a23", some "2025-02-02 02:02:02"⟩

/-- The spec's example batch, arriving in source order `[INC5, INC100, INC23]`. -/
def c4resp : Response := ⟨200, [inc5, inc100, inc23]⟩

/-- A record with every nullable field present except the creation
timestamp. -/
def noCreatedTicket : RawTicket :=
  ⟨some "INC0010001", some "Title", some "Query", some "Answer", none⟩

/-- A record missing title, query and answer, with a valid timestamp. -/
def sparseTicket : RawTicket :=
  ⟨some "INC7", none, none, none, some "2025-05-05 05:05:05"⟩

/-- A ticket collection already holding a checkpoint, as left by a previous
successful sync. -/
def cpColl : Collection :=
  { name := "ticketData"
    metadata := [("hnsw:space", .s "cosine"), ("sync_threshold", .i 1000),
                 ("batch_size", .i 100), ("last_update_time", .s "2025-01-01 00:00:00")]
    ids := ["0"], docs := ["d"], docMetas := [[("ticket_number", .s "INC1")]] }

/-- The record batch and failure injections used by the C2 witness. -/
def inc2Ticket : RawTicket :=
  ⟨some "INC2", some "T", some "Q", some "A", some "2025-01-02 03:04:05"⟩

def addFailEnv : Env :=
  { connect_error := none
    response := { status_code := 200, result := [inc2Ticket] }
    add_error := some "boom"
    modify_error := none }

def okEnv : Env :=
  { connect_error := none
    response := { status_code := 200, result := [inc2Ticket] }
    add_error := none
    modify_error := none }

/-- The cutoff `sync_tickets` would use against the current store state: the
stored watermark when present and non-empty, else the epoch default. -/
def theCutoff (db : DB) : String :=
  match cpOf db with
  | some (.s a) => if a = "" then "2000-01-01 00:00:00" else a
  | _ => "2000-01-01 00:00:00"

/-- State invariant: the stored checkpoint, if present, is a non-empty
string in the source's timestamp format.  (Holds for the empty store and is
preserved by every run; rules out stores hand-edited to nonsense values.) -/
def CpInvB (db : DB) : Bool :=
  match cpOf db with
  | none => true
  | some (.s a) => (a != "") && (parseDT a).isSome
  | some _ => false

/-- The claim's hypothesis on one response: the source only returns records
created strictly after the supplied checkpoint (vacuous for non-200
responses, whose payload is never read). -/
def goodRespB (cutoff : String) (resp : Response) : Bool :=
  (resp.status_code != 200) ||
    resp.result.all (fun t => tsLtB cutoff (t.sys_created_on.getD ""))

/-- Run a sequence of sync invocations, threading the store. -/
def runAll : DB → List Env → DB
  | db, [] => db
  | db, e :: es => runAll (sync_tickets e db).1 es

/-- The claim's hypothesis along a whole run sequence: each response is
strictly-after with respect to the cutoff the run actually uses. -/
def goodChainB : DB → List Env → Bool
  | _, [] => true
  | db, e :: es =>
    goodRespB (theCutoff db) e.response && goodChainB (sync_tickets e db).1 es

/-- "The stored checkpoint never decreases" between two store states, read
as timestamps. -/
def cpMono (o1 o2 : Option MVal) : Prop :=
  ∀ a, o1 = some (.s a) → ∃ b, o2 = some (.s b) ∧ tsLeB a b = true

/-- A later batch for the second run of the C1 witness. -/
def inc3Ticket : RawTicket :=
  ⟨some "INC3", some "T3", some "Q3", some "A3", some "2025-01-03 04:05:06"⟩

def okEnv2 : Env :=
  { connect_error := none
    response := { status_code := 200, result := [inc3Ticket] }
    add_error := none
    modify_error := none }

/-- Python's `str.strip()`: drop leading and trailing whitespace. -/
def stripChars (l : List Char) : List Char :=
  ((l.dropWhile Char.isWhitespace).reverse.dropWhile Char.isWhitespace).reverse

/-- Substring occurrence test (`re.search` for an escaped literal). -/
def containsSeq (sep : List Char) : List Char → Bool
  | [] => sep.isEmpty
  | c :: cs => sep.isPrefixOf (c :: cs) || containsSeq sep cs

/-- The separator-selection loop: the first separator occurring in the text
is chosen together with the remaining preference list; if none occurs, the
last separator is chosen with an empty remainder. -/
def pickSep (text : List Char) : List (List Char) → (List Char × List (List Char))
  | [] => ([], [])
  | s :: rest =>
    if containsSeq s text then (s, rest)
    else
      match rest with
      | [] => (s, [])
      | _ :: _ => pickSep text rest

/-- Split at each non-overlapping occurrence of the two-character separator
`[a, b]`, leftmost first (`re.split` semantics, parts only). -/
def split2 (a b : Char) : List Char → List (List Char)
  | [] => [[]]
  | [c] => [[c]]
  | c :: c2 :: cs =>
    if c = a ∧ c2 = b then
      [] :: split2 a b cs
    else
      match split2 a b (c2 :: cs) with
      | [] => [[]]
      | h :: t => (c :: h) :: t

/-- `re.split` for the separators this repository configures (one or two
characters). -/
def splitBySep (sep : List Char) (text : List Char) : List (List Char) :=
  match sep with
  | [a] => splitChar a text
  | [a, b] => split2 a b text
  | _ => [text]

/-- `keep_separator=True` recombination: the separator is attached to the
piece following it, and empty pieces are dropped. -/
def keepSepPieces (sep : List Char) (parts : List (List Char)) : List (List Char) :=
  match parts with
  | [] => []
  | p :: ps => (p :: ps.map (fun q => sep ++ q)).filter (fun x => !x.isEmpty)

/-- `"".join` then strip — `_join_docs` with the empty joining separator
(`keep_separator=True` makes the merge separator empty). -/
def joinStrip (current : List (List Char)) : List Char :=
  stripChars current.flatten

/-- The overlap pop loop of `_merge_splits`: drop leading pieces of the
running window while the kept total exceeds the 100-character overlap budget,
or while the next piece would not fit in the 500-character target. -/
def popLoop (lenD : Nat) : List (List Char) → Nat → (List (List Char) × Nat)
  | current, total =>
    if 100 < total ∨ (500 < total + lenD ∧ 0 < total) then
      match current with
      | [] => ([], total)
      | p :: rest => popLoop lenD rest (total - p.length)
    else (current, total)

/-- The merge loop of `_merge_splits` (chunk size 500, overlap 100, empty
separator): `ds` are the pending pieces, `docs` the chunks emitted so far,
`current`/`total` the running window and its total length. -/
def mergeLoop : List (List Char) → List (List Char) → Nat → List (List Char) →
    List (List Char)
  | [], docs, _, current =>
    let doc := joinStrip current
    if doc.isEmpty then docs else docs ++ [doc]
  | d :: ds, docs, total, current =>
    if 500 < total + d.length then
      let docs2 :=
        if current.isEmpty then docs
        else
          let doc := joinStrip current
          if doc.isEmpty then docs else docs ++ [doc]
      let pr := if current.isEmpty then (current, total) else popLoop d.length current total
      mergeLoop ds docs2 (pr.2 + d.length) (pr.1 ++ [d])
    else
      mergeLoop ds docs (total + d.length) (current ++ [d])

/-- `_merge_splits` on a run of under-target pieces. -/
def mergeSplits (splits : List (List Char)) : List (List Char) :=
  mergeLoop splits [] 0 []

/-- The piece loop of `_split_text`: pieces under the target size accumulate
(in reverse) in `goods`; an oversized piece flushes the accumulated merge,
then is either refined by `recur` (when finer separators remain) or appended
whole. -/
def goPieces (recur : List Char → List (List Char)) (hasNew : Bool) :
    List (List Char) → List (List Char) → List (List Char)
  | goods, [] => if goods.isEmpty then [] else mergeSplits goods.reverse
  | goods, s :: rest =>
    if s.length < 500 then goPieces recur hasNew (s :: goods) rest
    else
      (if goods.isEmpty then [] else mergeSplits goods.reverse) ++
      (if hasNew then recur s else [s]) ++
      goPieces recur hasNew [] rest

/-- `_split_text(text, separators)`; the fuel bounds the recursion depth by
the length of the separator preference list and is never exhausted from the
top-level call. -/
def splitTextF : Nat → List (List Char) → List Char → List (List Char)
  | 0, _, text => [text]
  | fuel + 1, seps, text =>
    let pr := pickSep text seps
    let splits := keepSepPieces pr.1 (splitBySep pr.1 text)
    goPieces (fun s => splitTextF fuel pr.2 s) (!pr.2.isEmpty) [] splits

/-- `PDFProcessor.split_text`: the configured recursive splitter followed by
the repository's own removal of chunks that are empty after `strip()`. -/
def split_text (text : List Char) : List (List Char) :=
  (splitTextF 3 [['\n', '\n'], ['\n'], [' ']] text).filter
    (fun c => !(stripChars c).isEmpty)

/-- Characters beyond the first of a chunk kept whole: no space and no line
break (the leading character may be the separator the splitter attached). -/
def tail1Clean (c : List Char) : Prop :=
  ∀ x ∈ c.drop 1, x ≠ ' ' ∧ x ≠ '\n'

/-- The amended per-chunk guarantee: within the target size, or an
unsplittable run (no separator occurrence past its first character). -/
def chunkOk (c : List Char) : Prop :=
  c.length ≤ 500 ∨ tail1Clean c

/-- A space-free run one character over the target size. -/
def aRun : List Char := List.replicate 501 'a'

/-- Two 400-character words followed by a 501-character word. -/
def abcText : List Char :=
  List.replicate 400 'a' ++ [' '] ++ List.replicate 400 'b' ++ [' '] ++
    List.replicate 501 'c'

theorem mlookup_setKey_self (m : Metadata) (k : String) (v : MVal) :
    mlookup (setKey m k v) k = some v := by
  induction m with
  | nil => simp [setKey, mlookup]
  | cons kv rest ih =>
    by_cases h : kv.1 = k
    · simp [setKey, h, mlookup]
    · simp [setKey, h, mlookup, ih]

theorem mlookup_setKey_other (m : Metadata) (k k1 : String) (v : MVal)
    (h : k1 ≠ k) : mlookup (setKey m k v) k1 = mlookup m k1 := by
  have hk : ¬ k = k1 := fun h2 => h h2.symm
  induction m with
  | nil => simp [setKey, mlookup, hk]
  | cons kv rest ih =>
    obtain ⟨ka, va⟩ := kv
    by_cases h2 : ka = k
    · subst h2
      simp [setKey, mlookup, hk]
    · simp only [setKey, if_neg h2, mlookup]
      by_cases h4 : ka = k1
      · simp [h4]
      · simp [h4, ih]

theorem modifyMeta_single (m : Metadata) (k : String) (v : MVal) :
    modifyMeta m [(k, v)] = setKey m k v := rfl

theorem findColl_name (db : DB) (n : String) (c : Collection)
    (h : findColl db n = some c) : c.name = n := by
  induction db with
  | nil => simp [findColl] at h
  | cons c1 rest ih =>
    by_cases h2 : c1.name = n
    · simp [findColl, h2] at h
      exact h ▸ h2
    · simp [findColl, h2] at h
      exact ih h

theorem findColl_append_of_none (db : DB) (c : Collection) (n : String)
    (h : findColl db n = none) :
    findColl (db ++ [c]) n = if c.name = n then some c else none := by
  induction db with
  | nil => simp [findColl]
  | cons c0 rest ih =>
    by_cases h2 : c0.name = n
    · simp [findColl, h2] at h
    · simp [findColl, h2] at h ⊢
      exact ih h

theorem findColl_updateColl (db : DB) (n : String) (c c0 : Collection)
    (hn : c.name = n) (h : findColl db n = some c0) :
    findColl (updateColl db n c) n = some c := by
  induction db with
  | nil => simp [findColl] at h
  | cons c1 rest ih =>
    by_cases h2 : c1.name = n
    · simp [updateColl, findColl, h2, hn]
    · simp only [findColl, if_neg h2] at h
      simp only [updateColl, List.map_cons, if_neg h2, findColl, if_neg h2]
      exact ih h

theorem findColl_acquire (db : DB) :
    findColl (acquireTicketColl db).1 "ticketData" = some (acquireTicketColl db).2 := by
  unfold acquireTicketColl
  cases h : findColl db "ticketData" with
  | some c => simpa using h
  | none => simp [findColl_append_of_none db _ _ h]

theorem acquire_name (db : DB) : (acquireTicketColl db).2.name = "ticketData" :=
  findColl_name _ _ _ (findColl_acquire db)

theorem cpOf_acquire (db : DB) : cpOf (acquireTicketColl db).1 = cpOf db := by
  unfold acquireTicketColl cpOf
  cases h : findColl db "ticketData" with
  | some c => simp [h]
  | none =>
    simp only [h]
    rw [findColl_append_of_none db _ _ h]
    simp [mlookup]

theorem findColl_goc (db : DB) (name : String) (md : Option Metadata) :
    findColl (get_or_create_collection db name md).1 name =
      some (get_or_create_collection db name md).2 := by
  unfold get_or_create_collection
  cases h : findColl db name with
  | some c => simpa using h
  | none => simp [findColl_append_of_none db _ _ h]

theorem self_le_pymax (f : α → Int) (a : α) (l : List α) :
    f a ≤ f (pymax f a l) := by
  induction l generalizing a with
  | nil => simp [pymax]
  | cons b bs ih =>
    have h1 : f a ≤ f (if f a < f b then b else a) := by
      by_cases h2 : f a < f b
      · simp [h2]; exact le_of_lt h2
      · simp [h2]
    calc f a ≤ f (if f a < f b then b else a) := h1
      _ ≤ f (pymax f (if f a < f b then b else a) bs) := ih _
      _ = f (pymax f a (b :: bs)) := by simp [pymax]

theorem le_pymax (f : α → Int) (a : α) (l : List α) (x : α) (hx : x ∈ a :: l) :
    f x ≤ f (pymax f a l) := by
  induction l generalizing a with
  | nil =>
    simp at hx
    simp [pymax, hx]
  | cons b bs ih =>
    have hab : f a ≤ f (if f a < f b then b else a) ∧ f b ≤ f (if f a < f b then b else a) := by
      by_cases h2 : f a < f b
      · exact ⟨by simp [h2]; exact le_of_lt h2, by simp [h2]⟩
      · exact ⟨by simp [h2], by simp [h2]; exact le_of_not_lt h2⟩
    have hgoal : f (pymax f a (b :: bs)) = f (pymax f (if f a < f b then b else a) bs) := by
      simp [pymax]
    rcases List.mem_cons.1 hx with h1 | h1
    · rw [h1, hgoal]
      exact le_trans hab.1 (self_le_pymax f _ bs)
    · rcases List.mem_cons.1 h1 with h2 | h2
      · rw [h2, hgoal]
        exact le_trans hab.2 (self_le_pymax f _ bs)
      · rw [hgoal]
        exact ih _ (List.mem_cons_of_mem _ h2)

theorem pymax_mem (f : α → Int) (a : α) (l : List α) : pymax f a l ∈ a :: l := by
  induction l generalizing a with
  | nil => simp [pymax]
  | cons b bs ih =>
    have h := ih (if f a < f b then b else a)
    have hstep : pymax f a (b :: bs) = pymax f (if f a < f b then b else a) bs := by
      simp [pymax]
    rw [hstep]
    rcases List.mem_cons.1 h with h1 | h1
    · by_cases h2 : f a < f b
      · rw [h1]; simp [h2]
      · rw [h1]; simp [h2]
    · simp [List.mem_cons_of_mem, h1]

/-- Get-or-create of an existing collection is a pure read. -/
theorem goc_found (db : DB) (name : String) (md : Option Metadata) (c : Collection)
    (h : findColl db name = some c) : get_or_create_collection db name md = (db, c) := by
  unfold get_or_create_collection
  rw [h]

/-! ## C3 — the save path rewrites only the watermark key -/

/-- **C3.** `save_last_update_time` rewrites only the watermark key
`last_update_time` in the collection's metadata map: for every collection
state, every other metadata key (in particular `hnsw:space`,
`sync_threshold`, `batch_size`) is still bound to its previous value after
the call, and the watermark key afterwards holds exactly the saved string. -/
theorem save_rewrites_only_watermark (coll : Collection) (t k : String)
    (h : k ≠ "last_update_time") :
    mlookup (save_last_update_time coll t).metadata k = mlookup coll.metadata k ∧
    mlookup (save_last_update_time coll t).metadata "last_update_time" = some (.s t) := by
  have hm : (save_last_update_time coll t).metadata =
      setKey coll.metadata "last_update_time" (.s t) := rfl
  rw [hm]
  exact ⟨mlookup_setKey_other _ _ _ _ h, mlookup_setKey_self _ _ _⟩

/-- Witness for C3: saving a watermark into the freshly-created ticket
collection keeps `hnsw:space = "cosine"` and stores the watermark. -/
theorem save_rewrites_only_watermark_witness :
    mlookup (save_last_update_time sampleColl "2025-07-03 15:16:53").metadata "hnsw:space" =
      some (.s "cosine") ∧
    mlookup (save_last_update_time sampleColl "2025-07-03 15:16:53").metadata "last_update_time" =
      some (.s "2025-07-03 15:16:53") :=
  ⟨((save_rewrites_only_watermark sampleColl "2025-07-03 15:16:53" "hnsw:space" (by decide)).1).trans
      (by decide),
   (save_rewrites_only_watermark sampleColl "2025-07-03 15:16:53" "hnsw:space" (by decide)).2⟩

/-! ## C6 — get-or-create of an existing collection is a pure read -/

/-- **C6.** Get-or-create of a collection that already exists returns it
unchanged: the store is untouched and the returned handle is the existing
collection with all its metadata (including any stored checkpoint), even when
the call supplies different default metadata; likewise the explicit
exists-check branch of `sync_tickets` fetches the existing ticket collection
without modifying anything. -/
theorem get_or_create_preserves_existing :
    (∀ (db : DB) (name : String) (md : Option Metadata) (c : Collection),
       findColl db name = some c → get_or_create_collection db name md = (db, c)) ∧
    (∀ (db : DB) (c : Collection),
       findColl db "ticketData" = some c → acquireTicketColl db = (db, c)) := by
  constructor
  · intro db name md c h
    unfold get_or_create_collection
    rw [h]
  · intro db c h
    unfold acquireTicketColl
    rw [h]

/-- Witness for C6: get-or-create with a *different* default metadata map
returns the pre-existing collection and leaves the store unchanged. -/
theorem get_or_create_preserves_existing_witness :
    get_or_create_collection [docColl] "documentation" (some [("hnsw:space", .s "l2")]) =
      ([docColl], docColl) :=
  get_or_create_preserves_existing.1 [docColl] "documentation"
    (some [("hnsw:space", .s "l2")]) docColl (by decide)

/-! ## C9 — checkpoint-set validation -/

/-- **C9.** A `setCheckpoint` payload whose timestamp does not parse as
`YYYY-MM-DD HH:MM:SS` is rejected with HTTP 400 before any store mutation
(the store is returned unchanged); a payload that does parse succeeds, and a
subsequent `getCheckpoint` returns exactly the stored string. -/
theorem set_checkpoint_validated (db : DB) (ts : String) :
    (parseDT ts = none → update_last_update_time db (some ts) = (db, .badRequest)) ∧
    (∀ dt, parseDT ts = some dt →
       ∃ db2, update_last_update_time db (some ts) = (db2, .ok ts) ∧
              (get_last_update_time db2).2 = some (.s ts)) := by
  constructor
  · intro h
    unfold update_last_update_time
    simp only [h]
  · intro dt h
    unfold update_last_update_time
    simp only [h]
    refine ⟨_, rfl, ?_⟩
    have hf1 : findColl (get_or_create_collection db "ticketData" none).1 "ticketData" =
        some (get_or_create_collection db "ticketData" none).2 := findColl_goc db _ none
    have hname0 : (get_or_create_collection db "ticketData" none).2.name = "ticketData" :=
      findColl_name _ _ _ hf1
    have hname : (save_last_update_time (get_or_create_collection db "ticketData" none).2 ts).name =
        "ticketData" := hname0
    have hf2 : findColl
        (updateColl (get_or_create_collection db "ticketData" none).1 "ticketData"
          (save_last_update_time (get_or_create_collection db "ticketData" none).2 ts))
        "ticketData" =
        some (save_last_update_time (get_or_create_collection db "ticketData" none).2 ts) :=
      findColl_updateColl _ _ _ _ hname hf1
    unfold get_last_update_time
    rw [goc_found _ _ none _ hf2]
    exact mlookup_setKey_self _ _ _

/-- Witness for C9: the spec's own two examples, starting from an empty
store — `"2025-13-50 99:99:99"` is rejected without mutation,
`"2025-07-03 15:16:53"` is stored and read back verbatim. -/
theorem set_checkpoint_validated_witness :
    update_last_update_time [] (some "2025-13-50 99:99:99") = ([], .badRequest) ∧
    ∃ db2, update_last_update_time [] (some "2025-07-03 15:16:53") =
             (db2, .ok "2025-07-03 15:16:53") ∧
           (get_last_update_time db2).2 = some (.s "2025-07-03 15:16:53") :=
  ⟨(set_checkpoint_validated [] "2025-13-50 99:99:99").1 (by decide),
   (set_checkpoint_validated [] "2025-07-03 15:16:53").2 ⟨2025, 7, 3, 15, 16, 53⟩ (by decide)⟩

/-! ## C8 — similarity metadata at collection creation -/

/-- **C8 counterexample.** The claim that *every* code path that may create a
collection fixes `hnsw:space = "cosine"` at creation is false: the
checkpoint-read endpoint `GET /last-update-ticket-time`, called when the
ticket collection does not exist yet, creates it via
`get_or_create_collection` *without* any metadata, so the created
collection's metadata has no `hnsw:space` key at all. -/
theorem checkpoint_endpoint_creates_without_cosine :
    (findColl (get_last_update_time []).1 "ticketData").isSome = true ∧
    Option.map (fun c => mlookup c.metadata "hnsw:space")
      (findColl (get_last_update_time []).1 "ticketData") = some none := by
  decide

/-- **C8 (amended).** The ticket-sync path and the document-storage path do
create their collections with `hnsw:space = "cosine"`, and the sync path's
later watermark saves never touch that key; the checkpoint get/set endpoints,
however, create the ticket collection with no similarity metadata at all. -/
theorem collection_creation_metadata :
    (∀ db : DB, findColl db "ticketData" = none →
       mlookup (acquireTicketColl db).2.metadata "hnsw:space" = some (.s "cosine")) ∧
    (∀ (db : DB) (chunks : List String) (src name : String), findColl db name = none →
       ∃ c, findColl (store_chunks db chunks src name).1 name = some c ∧
            mlookup c.metadata "hnsw:space" = some (.s "cosine")) ∧
    (∀ db : DB, findColl db "ticketData" = none →
       ∃ c, findColl (get_last_update_time db).1 "ticketData" = some c ∧
            mlookup c.metadata "hnsw:space" = none) ∧
    (∀ (coll : Collection) (t : String),
       mlookup (save_last_update_time coll t).metadata "hnsw:space" =
         mlookup coll.metadata "hnsw:space") := by
  refine ⟨?_, ?_, ?_, ?_⟩
  · intro db h
    unfold acquireTicketColl
    rw [h]
    rfl
  · intro db chunks src name h
    unfold store_chunks get_or_create_collection
    rw [h]
    simp only
    have happ : findColl
        (db ++ [{ name := name, metadata := [("hnsw:space", .s "cosine")],
                  ids := [], docs := [], docMetas := [] }]) name =
        some { name := name, metadata := [("hnsw:space", .s "cosine")],
               ids := [], docs := [], docMetas := [] } := by
      rw [findColl_append_of_none db _ _ h]
      simp
    refine ⟨_, findColl_updateColl _ _ _ _ rfl happ, ?_⟩
    simp [mlookup]
  · intro db h
    unfold get_last_update_time get_or_create_collection
    rw [h]
    simp only
    have happ : findColl
        (db ++ [{ name := "ticketData", metadata := [],
                  ids := [], docs := [], docMetas := [] }]) "ticketData" =
        some { name := "ticketData", metadata := ([] : Metadata),
               ids := [], docs := [], docMetas := [] } := by
      rw [findColl_append_of_none db _ _ h]
      simp
    exact ⟨_, happ, rfl⟩
  · intro coll t
    have hm : (save_last_update_time coll t).metadata =
        setKey coll.metadata "last_update_time" (.s t) := rfl
    rw [hm]
    exact mlookup_setKey_other _ _ _ _ (by decide)

/-- Witness for C8 (amended): creation metadata on the two happy paths and
on the endpoint path, from an empty store. -/
theorem collection_creation_metadata_witness :
    mlookup (acquireTicketColl []).2.metadata "hnsw:space" = some (.s "cosine") ∧
    (∃ c, findColl (store_chunks [] ["chunk"] "doc.pdf" "documentation").1 "documentation" =
            some c ∧ mlookup c.metadata "hnsw:space" = some (.s "cosine")) ∧
    (∃ c, findColl (get_last_update_time []).1 "ticketData" = some c ∧
            mlookup c.metadata "hnsw:space" = none) :=
  ⟨collection_creation_metadata.1 [] (by decide),
   collection_creation_metadata.2.1 [] ["chunk"] "doc.pdf" "documentation" (by decide),
   collection_creation_metadata.2.2.1 [] (by decide)⟩

/-! ## Mapping lemmas for the fetcher -/

theorem mapTicket_ok_of_parses (t : RawTicket)
    (h1 : t.sys_created_on.isSome = true)
    (h2 : (parseDT (t.sys_created_on.getD "")).isSome = true) :
    mapTicket t = .ok (mapTicketOk t) := by
  obtain ⟨s, hs⟩ := Option.isSome_iff_exists.1 h1
  rw [hs] at h2
  simp only [Option.getD_some] at h2
  obtain ⟨dt, hdt⟩ := Option.isSome_iff_exists.1 h2
  unfold mapTicket pyStrptime mapTicketOk
  simp only [hs, Option.getD_some, hdt]
  rfl

theorem mapTickets_ok (l : List RawTicket)
    (h : ∀ t ∈ l, t.sys_created_on.isSome = true ∧
         (parseDT (t.sys_created_on.getD "")).isSome = true) :
    mapTickets l = .ok (l.map mapTicketOk) := by
  induction l with
  | nil => rfl
  | cons t ts ih =>
    have ht := h t (List.mem_cons_self _ _)
    unfold mapTickets
    rw [mapTicket_ok_of_parses t ht.1 ht.2,
        ih (fun x hx => h x (List.mem_cons_of_mem _ hx))]
    rfl

/-! ## C4 — latest-record selection by derived numeric ordinal -/

/-- **C4.** Whenever the fetcher returns a latest-record candidate, that
record attains the maximum derived numeric ordinal (`extract_number` of its
identifier) over the whole fetched batch, independently of array order and of
lexicographic identifier order; in particular, for the batch
`["INC5", "INC100", "INC23"]` in each of its six orders, the record selected
is `"INC100"`. -/
theorem latest_by_numeric_ordinal :
    (∀ (cutoff : String) (resp : Response) (mts : List MappedTicket) (l : RawTicket),
       fetch_tickets_from_servicenow cutoff resp = .ok (mts, some l) →
       ∀ t ∈ resp.result,
         extract_number (t.number.getD "") ≤ extract_number (l.number.getD "")) ∧
    ((latestTicket inc5 [inc100, inc23]).number = some "INC100") ∧
    ((latestTicket inc5 [inc23, inc100]).number = some "INC100") ∧
    ((latestTicket inc100 [inc5, inc23]).number = some "INC100") ∧
    ((latestTicket inc100 [inc23, inc5]).number = some "INC100") ∧
    ((latestTicket inc23 [inc5, inc100]).number = some "INC100") ∧
    ((latestTicket inc23 [inc100, inc5]).number = some "INC100") := by
  refine ⟨?_, by decide, by decide, by decide, by decide, by decide, by decide⟩
  intro cutoff resp mts l hf t ht
  unfold fetch_tickets_from_servicenow at hf
  rcases h1 : splitChar ' ' cutoff.data with _ | ⟨d1, _ | ⟨t1, _ | ⟨x, rest⟩⟩⟩ <;>
    rw [h1] at hf <;> simp only [] at hf
  · exact absurd hf (by simp)
  · exact absurd hf (by simp)
  · by_cases h200 : resp.status_code = 200
    · rw [if_pos h200] at hf
      cases hres : resp.result with
      | nil =>
        rw [hres] at hf
        simp only [fetch200, Except.ok.injEq, Prod.mk.injEq] at hf
        exact absurd hf.2 (by simp)
      | cons t0 ts =>
        rw [hres] at hf
        simp only [fetch200] at hf
        cases hm : mapTickets (t0 :: ts) with
        | error e =>
          rw [hm] at hf
          exact absurd hf (by simp [Bind.bind, Except.bind])
        | ok ms =>
          rw [hm] at hf
          simp only [Bind.bind, Except.bind, Except.ok.injEq, Prod.mk.injEq,
            Option.some.injEq] at hf
          rw [hres] at ht
          rw [← hf.2]
          exact le_pymax (fun x => extract_number (x.number.getD "")) t0 ts t ht
    · rw [if_neg h200] at hf
      simp only [Except.ok.injEq, Prod.mk.injEq] at hf
      exact absurd hf.2 (by simp)
  · exact absurd hf (by simp)

/-- Witness for C4: the general maximality statement applied to the concrete
batch — `INC23`'s ordinal is bounded by the selected `INC100`'s ordinal. -/
theorem latest_by_numeric_ordinal_witness :
    extract_number (inc23.number.getD "") ≤ extract_number (inc100.number.getD "") :=
  latest_by_numeric_ordinal.1 "2000-01-01 00:00:00" c4resp
    (c4resp.result.map mapTicketOk) inc100 (by decide) inc23 (by decide)

/-! ## C7 — one-for-one mapping of fetched records -/

/-- **C7 counterexample.** A 2xx response containing a record that lacks the
creation-timestamp field does *not* yield a mapped record with a null value
for that field: `datetime.strptime(None, …)` raises `TypeError`, so the whole
fetch call raises instead of returning the batch. -/
theorem fetch_raises_on_missing_created :
    fetch_tickets_from_servicenow "2000-01-01 00:00:00" ⟨200, [noCreatedTicket]⟩ =
      .error "TypeError: strptime() argument 1 must be str, not None" := by
  decide

/-- **C7 (amended).** For every 200 response all of whose records carry a
present and parseable creation timestamp, the fetcher maps the raw records
one-for-one, in order, into the normalized schema (no record dropped), and a
missing title, query or answer field propagates as a null value in the mapped
record; a record whose creation timestamp is missing or unparseable instead
aborts the whole fetch with an exception. -/
theorem fetch_maps_one_for_one (cutoff : String) (resp : Response)
    (hsp : (splitChar ' ' cutoff.data).length = 2)
    (h200 : resp.status_code = 200)
    (hts : ∀ t ∈ resp.result, t.sys_created_on.isSome = true ∧
           (parseDT (t.sys_created_on.getD "")).isSome = true) :
    fetch_tickets_from_servicenow cutoff resp =
      .ok (resp.result.map mapTicketOk,
           match resp.result with
           | [] => none
           | t0 :: ts => some (latestTicket t0 ts)) ∧
    (∀ t : RawTicket, (mapTicketOk t).ticket_number = t.number ∧
       (mapTicketOk t).title = t.short_description ∧
       (mapTicketOk t).query = t.description ∧
       (mapTicketOk t).answer = t.close_notes) ∧
    (resp.result.map mapTicketOk).length = resp.result.length := by
  refine ⟨?_, fun t => ⟨rfl, rfl, rfl, rfl⟩, by simp⟩
  unfold fetch_tickets_from_servicenow
  rcases h1 : splitChar ' ' cutoff.data with _ | ⟨d1, _ | ⟨t1, _ | ⟨x, rest⟩⟩⟩ <;>
    rw [h1] at hsp <;> simp only [List.length_cons, List.length_nil] at hsp
  · omega
  · omega
  · rw [if_pos h200]
    cases hres : resp.result with
    | nil => rfl
    | cons t0 ts =>
      simp only [fetch200]
      rw [mapTickets_ok (t0 :: ts) (hres ▸ hts)]
      rfl
  · omega

/-- Witness for C7 (amended): a batch of one sparse record is mapped
one-for-one with nulls propagated. -/
theorem fetch_maps_one_for_one_witness :
    fetch_tickets_from_servicenow "2000-01-01 00:00:00" ⟨200, [sparseTicket]⟩ =
      .ok ([sparseTicket].map mapTicketOk, some (latestTicket sparseTicket [])) ∧
    (mapTicketOk sparseTicket).title = none :=
  ⟨(fetch_maps_one_for_one "2000-01-01 00:00:00" ⟨200, [sparseTicket]⟩
      (by decide) rfl (by decide)).1,
   ((fetch_maps_one_for_one "2000-01-01 00:00:00" ⟨200, [sparseTicket]⟩
      (by decide) rfl (by decide)).2.1 sparseTicket).2.1.trans rfl⟩

/-! ## C5 — non-2xx responses degrade to the empty outcome -/

/-- **C5.** For every non-2xx status response, the fetcher raises no
exception and returns `([], None)`, and the enclosing sync run is literally
indistinguishable from a run whose source returned zero records: same store,
same outcome (`success = true`, `tickets_processed = 0`), same (empty) event
trace, and no checkpoint change. -/
theorem non2xx_treated_as_empty (env : Env) (db : DB) (cutoff : String)
    (hconn : env.connect_error = none)
    (hcut : computeCutoff (acquireTicketColl db).2 = .ok cutoff)
    (hsp : (splitChar ' ' cutoff.data).length = 2)
    (hst : env.response.status_code < 200 ∨ 300 ≤ env.response.status_code) :
    fetch_tickets_from_servicenow cutoff env.response = .ok ([], none) ∧
    sync_tickets env db =
      sync_tickets { env with response := { status_code := 200, result := [] } } db ∧
    (sync_tickets env db).2.1 =
      { success := true, message := "No new tickets to process",
        tickets_processed := 0, latest_update_time := none } ∧
    cpOf (sync_tickets env db).1 = cpOf db := by
  have h200 : env.response.status_code ≠ 200 := by omega
  have hf : fetch_tickets_from_servicenow cutoff env.response = .ok ([], none) := by
    unfold fetch_tickets_from_servicenow
    rcases h1 : splitChar ' ' cutoff.data with _ | ⟨d1, _ | ⟨t1, _ | ⟨x, rest⟩⟩⟩ <;>
      rw [h1] at hsp <;> simp only [List.length_cons, List.length_nil] at hsp
    · omega
    · omega
    · rw [if_neg h200]
    · omega
  have hf2 : fetch_tickets_from_servicenow cutoff
      { status_code := 200, result := [] } = .ok ([], none) := by
    unfold fetch_tickets_from_servicenow
    rcases h1 : splitChar ' ' cutoff.data with _ | ⟨d1, _ | ⟨t1, _ | ⟨x, rest⟩⟩⟩ <;>
      rw [h1] at hsp <;> simp only [List.length_cons, List.length_nil] at hsp
    · omega
    · omega
    · rfl
    · omega
  have hmain : sync_tickets env db =
      ((acquireTicketColl db).1,
       { success := true, message := "No new tickets to process",
         tickets_processed := 0, latest_update_time := none }, []) := by
    unfold sync_tickets
    rw [hconn]
    simp only []
    rw [hcut]
    simp only []
    rw [hf]
  have hmain2 : sync_tickets { env with response := { status_code := 200, result := [] } } db =
      ((acquireTicketColl db).1,
       { success := true, message := "No new tickets to process",
         tickets_processed := 0, latest_update_time := none }, []) := by
    unfold sync_tickets
    rw [show ({ env with response := { status_code := 200, result := [] } } : Env).connect_error =
          none from hconn]
    simp only []
    rw [hcut]
    simp only []
    rw [hf2]
  refine ⟨hf, hmain.trans hmain2.symm, ?_, ?_⟩
  · rw [hmain]
  · rw [hmain]
    exact cpOf_acquire db

/-- Witness for C5: a 404 from the source behaves exactly like an empty
batch against a store with an existing checkpoint. -/
theorem non2xx_treated_as_empty_witness :
    fetch_tickets_from_servicenow "2025-01-01 00:00:00"
      { status_code := 404, result := [] } = .ok ([], none) ∧
    sync_tickets { connect_error := none, response := { status_code := 404, result := [] },
                   add_error := none, modify_error := none } [cpColl] =
      sync_tickets { connect_error := none, response := { status_code := 200, result := [] },
                     add_error := none, modify_error := none } [cpColl] ∧
    (sync_tickets { connect_error := none, response := { status_code := 404, result := [] },
                    add_error := none, modify_error := none } [cpColl]).2.1 =
      { success := true, message := "No new tickets to process",
        tickets_processed := 0, latest_update_time := none } ∧
    cpOf (sync_tickets { connect_error := none,
                         response := { status_code := 404, result := [] },
                         add_error := none, modify_error := none } [cpColl]).1 =
      cpOf [cpColl] :=
  non2xx_treated_as_empty
    { connect_error := none, response := { status_code := 404, result := [] },
      add_error := none, modify_error := none }
    [cpColl] "2025-01-01 00:00:00" rfl (by decide) (by decide) (Or.inr (by decide))

/-! ## C2 — checkpoint advance ordering and error outcomes -/

theorem cpOf_db1 (db : DB) :
    cpOf (acquireTicketColl db).1 =
      mlookup (acquireTicketColl db).2.metadata "last_update_time" := by
  unfold cpOf
  rw [findColl_acquire db]

theorem cpOf_after_add (db : DB) (docs : List String) (metas : List Metadata) :
    cpOf (updateColl (acquireTicketColl db).1 "ticketData"
      (store_ticket_data (acquireTicketColl db).2 docs metas)) = cpOf db := by
  have h1 : cpOf (updateColl (acquireTicketColl db).1 "ticketData"
      (store_ticket_data (acquireTicketColl db).2 docs metas)) =
      mlookup (store_ticket_data (acquireTicketColl db).2 docs metas).metadata
        "last_update_time" := by
    unfold cpOf
    rw [findColl_updateColl _ _ _ _
          (show (store_ticket_data (acquireTicketColl db).2 docs metas).name = "ticketData" from
            acquire_name db)
          (findColl_acquire db)]
  rw [h1]
  have h2 : (store_ticket_data (acquireTicketColl db).2 docs metas).metadata =
      (acquireTicketColl db).2.metadata := rfl
  rw [h2, ← cpOf_db1 db]
  exact cpOf_acquire db

theorem cpOf_after_save (db : DB) (docs : List String) (metas : List Metadata)
    (t : String) :
    cpOf (updateColl (updateColl (acquireTicketColl db).1 "ticketData"
        (store_ticket_data (acquireTicketColl db).2 docs metas)) "ticketData"
        (save_last_update_time (store_ticket_data (acquireTicketColl db).2 docs metas) t)) =
      some (.s t) := by
  unfold cpOf
  rw [findColl_updateColl _ _ _ _
        (show (save_last_update_time
            (store_ticket_data (acquireTicketColl db).2 docs metas) t).name = "ticketData" from
          acquire_name db)
        (findColl_updateColl _ _ _ _
          (show (store_ticket_data (acquireTicketColl db).2 docs metas).name = "ticketData" from
            acquire_name db)
          (findColl_acquire db))]
  exact mlookup_setKey_self _ _ _

/-- **C2.** In every sync run: a run that reports `success = false` has left
the stored checkpoint unchanged and carries the exception message embedded in
its outcome message; whenever a checkpoint save occurs, the run's event trace
is exactly a successful `coll.add` followed by the save, and the saved
latest-record timestamp is non-empty; and the checkpoint can only change at
all if a save event occurred. -/
theorem sync_error_and_order (env : Env) (db : DB) :
    ((sync_tickets env db).2.1.success = false →
       cpOf (sync_tickets env db).1 = cpOf db ∧
       ∃ e, (sync_tickets env db).2.1.message = "Error during ticket sync: " ++ e) ∧
    (∀ t, Event.saved t ∈ (sync_tickets env db).2.2 →
       t ≠ "" ∧ ∃ n, (sync_tickets env db).2.2 = [Event.added n, Event.saved t]) ∧
    (cpOf (sync_tickets env db).1 ≠ cpOf db →
       ∃ t, Event.saved t ∈ (sync_tickets env db).2.2) := by
  unfold sync_tickets
  cases hce : env.connect_error with
  | some e =>
    exact ⟨fun _ => ⟨rfl, e, rfl⟩, fun t htr => absurd htr (by simp),
           fun hne => absurd rfl hne⟩
  | none =>
    simp only []
    cases hcc : computeCutoff (acquireTicketColl db).2 with
    | error e =>
      exact ⟨fun _ => ⟨cpOf_acquire db, e, rfl⟩, fun t htr => absurd htr (by simp),
             fun hne => absurd (cpOf_acquire db) hne⟩
    | ok cutoff =>
      simp only []
      cases hf : fetch_tickets_from_servicenow cutoff env.response with
      | error e =>
        exact ⟨fun _ => ⟨cpOf_acquire db, e, rfl⟩, fun t htr => absurd htr (by simp),
               fun hne => absurd (cpOf_acquire db) hne⟩
      | ok tl =>
        obtain ⟨tickets, latest⟩ := tl
        simp only []
        cases tickets with
        | nil =>
          exact ⟨fun h => absurd h (by simp), fun t htr => absurd htr (by simp),
                 fun hne => absurd (cpOf_acquire db) hne⟩
        | cons t0 ts =>
          cases hae : env.add_error with
          | some e =>
            exact ⟨fun _ => ⟨cpOf_acquire db, e, rfl⟩, fun t htr => absurd htr (by simp),
                   fun hne => absurd (cpOf_acquire db) hne⟩
          | none =>
            simp only []
            cases latest with
            | none =>
              exact ⟨fun _ => ⟨cpOf_after_add db _ _, _, rfl⟩,
                     fun t htr => absurd htr (by simp),
                     fun hne => absurd (cpOf_after_add db _ _) hne⟩
            | some l =>
              simp only []
              cases hlt : l.sys_created_on with
              | none =>
                exact ⟨fun h => absurd h (by simp), fun t htr => absurd htr (by simp),
                       fun hne => absurd (cpOf_after_add db _ _) hne⟩
              | some t =>
                simp only []
                by_cases ht : t = ""
                · rw [if_pos ht]
                  exact ⟨fun h => absurd h (by simp), fun t2 htr => absurd htr (by simp),
                         fun hne => absurd (cpOf_after_add db _ _) hne⟩
                · rw [if_neg ht]
                  cases hme : env.modify_error with
                  | some e =>
                    exact ⟨fun _ => ⟨cpOf_after_add db _ _, e, rfl⟩,
                           fun t2 htr => absurd htr (by simp),
                           fun hne => absurd (cpOf_after_add db _ _) hne⟩
                  | none =>
                    refine ⟨fun h => absurd h (by simp), ?_, fun _ => ⟨t, by simp⟩⟩
                    intro t2 htr
                    have ht2 : t2 = t := by
                      simp at htr
                      exact htr
                    subst ht2
                    exact ⟨ht, _, rfl⟩

/-- Witness for C2: a failed `coll.add` yields `success = false` with the
exception message embedded and an unchanged checkpoint, while a fully
successful run's trace is the add followed by the save of a non-empty
timestamp. -/
theorem sync_error_and_order_witness :
    (cpOf (sync_tickets addFailEnv [cpColl]).1 = cpOf [cpColl] ∧
     ∃ e, (sync_tickets addFailEnv [cpColl]).2.1.message =
       "Error during ticket sync: " ++ e) ∧
    ("2025-01-02 03:04:05" ≠ "" ∧
     ∃ n, (sync_tickets okEnv [cpColl]).2.2 =
       [Event.added n, Event.saved "2025-01-02 03:04:05"]) :=
  ⟨(sync_error_and_order addFailEnv [cpColl]).1 (by decide),
   (sync_error_and_order okEnv [cpColl]).2.1 "2025-01-02 03:04:05" (by decide)⟩

/-! ## C1 — checkpoint monotonicity across successful syncs -/

theorem tsLtB_le (a b : String) (h : tsLtB a b = true) : tsLeB a b = true := by
  unfold tsLtB at h
  unfold tsLeB
  cases h1 : parseDT a <;> cases h2 : parseDT b <;> simp_all <;> omega

theorem tsLtB_parses_right (a b : String) (h : tsLtB a b = true) :
    (parseDT b).isSome = true ∧ b ≠ "" := by
  unfold tsLtB at h
  cases h1 : parseDT a <;> cases h2 : parseDT b <;> simp_all
  intro hb
  subst hb
  rw [show parseDT "" = none from by decide] at h2
  exact Option.noConfusion h2

theorem tsLeB_refl (a : String) (h : (parseDT a).isSome = true) :
    tsLeB a a = true := by
  obtain ⟨dt, hdt⟩ := Option.isSome_iff_exists.1 h
  unfold tsLeB
  rw [hdt]
  simp

theorem tsLeB_trans (a b c : String) (h1 : tsLeB a b = true) (h2 : tsLeB b c = true) :
    tsLeB a c = true := by
  unfold tsLeB at h1 h2 ⊢
  cases p1 : parseDT a <;> cases p2 : parseDT b <;> cases p3 : parseDT c <;>
    simp_all <;> omega

/-- Whenever the fetcher returns a latest-record candidate, the response was
a 200 and the candidate is one of its records. -/
theorem fetch_ok_latest (cutoff : String) (resp : Response) (mts : List MappedTicket)
    (l : RawTicket)
    (hf : fetch_tickets_from_servicenow cutoff resp = .ok (mts, some l)) :
    resp.status_code = 200 ∧ l ∈ resp.result := by
  unfold fetch_tickets_from_servicenow at hf
  rcases h1 : splitChar ' ' cutoff.data with _ | ⟨d1, _ | ⟨t1, _ | ⟨x, rest⟩⟩⟩ <;>
    rw [h1] at hf <;> simp only [] at hf
  · exact absurd hf (by simp)
  · exact absurd hf (by simp)
  · by_cases h200 : resp.status_code = 200
    · rw [if_pos h200] at hf
      cases hres : resp.result with
      | nil =>
        rw [hres] at hf
        simp only [fetch200, Except.ok.injEq, Prod.mk.injEq] at hf
        exact absurd hf.2 (by simp)
      | cons t0 ts =>
        rw [hres] at hf
        simp only [fetch200] at hf
        cases hm : mapTickets (t0 :: ts) with
        | error e =>
          rw [hm] at hf
          exact absurd hf (by simp [Bind.bind, Except.bind])
        | ok ms =>
          rw [hm] at hf
          simp only [Bind.bind, Except.bind, Except.ok.injEq, Prod.mk.injEq,
            Option.some.injEq] at hf
          refine ⟨h200, ?_⟩
          rw [← hf.2]
          exact pymax_mem _ t0 ts
    · rw [if_neg h200] at hf
      simp only [Except.ok.injEq, Prod.mk.injEq] at hf
      exact absurd hf.2 (by simp)
  · exact absurd hf (by simp)

/-- Under the state invariant, the cutoff the orchestrator computes is
exactly `theCutoff`. -/
theorem computeCutoff_eq (db : DB) (hinv : CpInvB db = true) :
    computeCutoff (acquireTicketColl db).2 = .ok (theCutoff db) := by
  have hkey : mlookup (acquireTicketColl db).2.metadata "last_update_time" = cpOf db :=
    (cpOf_db1 db).symm.trans (cpOf_acquire db)
  unfold computeCutoff theCutoff
  rw [hkey]
  unfold CpInvB at hinv
  cases hcp : cpOf db with
  | none => rfl
  | some v =>
    rw [hcp] at hinv
    cases v with
    | s a => rfl
    | i n => exact absurd hinv (by simp)
    | nil => exact absurd hinv (by simp)

/-- One run either leaves the checkpoint untouched, or replaces it with a
record timestamp strictly after the cutoff it used. -/
theorem sync_step_cp (env : Env) (db : DB)
    (hinv : CpInvB db = true)
    (hresp : goodRespB (theCutoff db) env.response = true) :
    cpOf (sync_tickets env db).1 = cpOf db ∨
    (∃ t, cpOf (sync_tickets env db).1 = some (.s t) ∧
          tsLtB (theCutoff db) t = true) := by
  unfold sync_tickets
  cases hce : env.connect_error with
  | some e => exact Or.inl rfl
  | none =>
    simp only []
    rw [computeCutoff_eq db hinv]
    simp only []
    cases hf : fetch_tickets_from_servicenow (theCutoff db) env.response with
    | error e => exact Or.inl (cpOf_acquire db)
    | ok tl =>
      obtain ⟨tickets, latest⟩ := tl
      simp only []
      cases tickets with
      | nil => exact Or.inl (cpOf_acquire db)
      | cons m0 ms =>
        cases hae : env.add_error with
        | some e => exact Or.inl (cpOf_acquire db)
        | none =>
          simp only []
          cases latest with
          | none => exact Or.inl (cpOf_after_add db _ _)
          | some l =>
            simp only []
            cases hlt : l.sys_created_on with
            | none => exact Or.inl (cpOf_after_add db _ _)
            | some t =>
              simp only []
              by_cases ht : t = ""
              · rw [if_pos ht]
                exact Or.inl (cpOf_after_add db _ _)
              · rw [if_neg ht]
                cases hme : env.modify_error with
                | some e => exact Or.inl (cpOf_after_add db _ _)
                | none =>
                  refine Or.inr ⟨t, cpOf_after_save db _ _ t, ?_⟩
                  obtain ⟨h200, hmem⟩ := fetch_ok_latest _ _ _ _ hf
                  unfold goodRespB at hresp
                  rw [h200] at hresp
                  simp only [bne_self_eq_false, Bool.false_or] at hresp
                  have hall := List.all_eq_true.1 hresp l hmem
                  rw [hlt] at hall
                  simpa using hall

/-- The state invariant is preserved by every run satisfying the
strictly-after hypothesis. -/
theorem sync_step_inv (env : Env) (db : DB)
    (hinv : CpInvB db = true)
    (hresp : goodRespB (theCutoff db) env.response = true) :
    CpInvB (sync_tickets env db).1 = true := by
  rcases sync_step_cp env db hinv hresp with h | ⟨t, h, hlt⟩
  · have h2 : CpInvB (sync_tickets env db).1 = CpInvB db := by
      unfold CpInvB
      rw [h]
    rw [h2]
    exact hinv
  · have hp := tsLtB_parses_right _ _ hlt
    unfold CpInvB
    rw [h]
    simp [hp.1, hp.2]

theorem chain_mono (envs : List Env) :
    ∀ db : DB, CpInvB db = true → goodChainB db envs = true →
      CpInvB (runAll db envs) = true ∧ cpMono (cpOf db) (cpOf (runAll db envs)) := by
  induction envs with
  | nil =>
    intro db h1 _
    refine ⟨h1, fun a ha => ⟨a, ha, ?_⟩⟩
    unfold CpInvB at h1
    rw [ha] at h1
    simp only [Bool.and_eq_true] at h1
    exact tsLeB_refl a h1.2
  | cons e es ih =>
    intro db h1 h2
    unfold goodChainB at h2
    rw [Bool.and_eq_true] at h2
    have hinv1 := sync_step_inv e db h1 h2.1
    obtain ⟨hinv2, hmono2⟩ := ih (sync_tickets e db).1 hinv1 h2.2
    refine ⟨hinv2, ?_⟩
    intro a ha
    rcases sync_step_cp e db h1 h2.1 with h | ⟨t, h, hlt⟩
    · exact hmono2 a (h.trans ha)
    · have hne : a ≠ "" := by
        unfold CpInvB at h1
        rw [ha] at h1
        simp only [Bool.and_eq_true, bne_iff_ne, ne_eq] at h1
        exact h1.1
      have hcut : theCutoff db = a := by
        unfold theCutoff
        rw [ha]
        exact if_neg hne
      rw [hcut] at hlt
      obtain ⟨b, hb, hle⟩ := hmono2 t h
      exact ⟨b, hb, tsLeB_trans a t b (tsLtB_le a t hlt) hle⟩

/-- **C1.** Under the hypothesis that the source only returns records created
strictly after the supplied checkpoint, over any sequence of sync runs the
stored checkpoint value, read as a `YYYY-MM-DD HH:MM:SS` timestamp, never
decreases (runs that fail or fetch nothing leave it unchanged), and whenever
a run replaces a stored checkpoint the new value is strictly greater than the
one it replaces. -/
theorem checkpoint_monotone :
    (∀ (envs : List Env) (db : DB), CpInvB db = true → goodChainB db envs = true →
       cpMono (cpOf db) (cpOf (runAll db envs))) ∧
    (∀ (env : Env) (db : DB), CpInvB db = true →
       goodRespB (theCutoff db) env.response = true →
       ∀ a b, cpOf db = some (.s a) → cpOf (sync_tickets env db).1 = some (.s b) →
         b ≠ a → tsLtB a b = true) := by
  constructor
  · intro envs db h1 h2
    exact (chain_mono envs db h1 h2).2
  · intro env db h1 h2 a b ha hb hne
    rcases sync_step_cp env db h1 h2 with h | ⟨t, h, hlt⟩
    · rw [ha] at h
      rw [h] at hb
      simp only [Option.some.injEq, MVal.s.injEq] at hb
      exact absurd hb.symm hne
    · rw [h] at hb
      simp only [Option.some.injEq, MVal.s.injEq] at hb
      have hane : a ≠ "" := by
        unfold CpInvB at h1
        rw [ha] at h1
        simp only [Bool.and_eq_true, bne_iff_ne, ne_eq] at h1
        exact h1.1
      have hcut : theCutoff db = a := by
        unfold theCutoff
        rw [ha]
        exact if_neg hane
      rw [hcut, hb] at hlt
      exact hlt

/-- Witness for C1: two consecutive successful runs against a store whose
checkpoint starts at `2025-01-01 00:00:00` — the final stored checkpoint is
at least the initial one, and the first run's replacement is strictly
greater. -/
theorem checkpoint_monotone_witness :
    (∃ b, cpOf (runAll [cpColl] [okEnv, okEnv2]) = some (.s b) ∧
          tsLeB "2025-01-01 00:00:00" b = true) ∧
    tsLtB "2025-01-01 00:00:00" "2025-01-02 03:04:05" = true :=
  ⟨checkpoint_monotone.1 [okEnv, okEnv2] [cpColl] (by decide) (by decide)
     "2025-01-01 00:00:00" (by decide),
   checkpoint_monotone.2 okEnv [cpColl] (by decide) (by decide)
     "2025-01-01 00:00:00" "2025-01-02 03:04:05" (by decide) (by decide) (by decide)⟩

/-! ## C10 — `split_text`: the recursive character splitter

Modelled from the spec: `document.py` delegates splitting to
`langchain.RecursiveCharacterTextSplitter(separators=["\n\n", "\n", " "],
chunk_size=500, chunk_overlap=100)`, whose implementation is not part of this
repository.  §4.3 describes it as "break the concatenated text into
overlapping chunks using a recursive separator preference order (paragraph
break, line break, space) with target chunk size 500 characters and overlap
100 characters between consecutive chunks; discard chunks that are empty or
whitespace-only after trimming" — note the *target* chunk size.  The
embedding below follows that recursive split-then-merge design: pick the
first separator present in the text; split, keeping each separator attached
to the piece after it; pieces under the target size are greedily merged into
chunks of at most the target size, carrying up to the 100-character overlap
budget of trailing pieces into the next chunk; an oversized piece is refined
recursively with the remaining separators, or kept whole once the preference
list is exhausted (the preference list ends at a single space, so a space-free
run is never subdivided); merged chunks are stripped of surrounding
whitespace.  `split_text` finally applies the repository's own filter
dropping chunks that are empty after stripping. -/

theorem length_dropWhile_le2 (p : Char → Bool) (l : List Char) :
    (l.dropWhile p).length ≤ l.length := by
  induction l with
  | nil => simp [List.dropWhile]
  | cons c cs ih =>
    by_cases h : p c
    · simp only [List.dropWhile, h]
      exact Nat.le_succ_of_le ih
    · simp [List.dropWhile, h]

theorem length_stripChars_le (l : List Char) : (stripChars l).length ≤ l.length := by
  unfold stripChars
  calc ((l.dropWhile Char.isWhitespace).reverse.dropWhile Char.isWhitespace).reverse.length
      = ((l.dropWhile Char.isWhitespace).reverse.dropWhile Char.isWhitespace).length := by
        rw [List.length_reverse]
    _ ≤ (l.dropWhile Char.isWhitespace).reverse.length := length_dropWhile_le2 _ _
    _ = (l.dropWhile Char.isWhitespace).length := by rw [List.length_reverse]
    _ ≤ l.length := length_dropWhile_le2 _ _

theorem joinStrip_le (current : List (List Char)) :
    (joinStrip current).length ≤ (current.map List.length).sum := by
  unfold joinStrip
  calc (stripChars current.flatten).length ≤ current.flatten.length :=
        length_stripChars_le _
    _ = (current.map List.length).sum := List.length_flatten current

theorem popLoop_spec (lenD : Nat) (current : List (List Char)) :
    ∀ total : Nat, total = (current.map List.length).sum →
    (popLoop lenD current total).2 =
        ((popLoop lenD current total).1.map List.length).sum ∧
    (popLoop lenD current total).2 ≤ 100 ∧
    ((popLoop lenD current total).2 + lenD ≤ 500 ∨ (popLoop lenD current total).2 = 0) := by
  induction current with
  | nil =>
    intro total ht
    simp only [List.map_nil, List.sum_nil] at ht
    subst ht
    unfold popLoop
    simp
  | cons p rest ih =>
    intro total ht
    unfold popLoop
    by_cases hg : 100 < total ∨ (500 < total + lenD ∧ 0 < total)
    · rw [if_pos hg]
      simp only []
      have ht2 : total - p.length = (rest.map List.length).sum := by
        simp only [List.map_cons, List.sum_cons] at ht
        omega
      exact ih (total - p.length) ht2
    · rw [if_neg hg]
      simp only []
      refine ⟨ht, ?_, ?_⟩ <;> omega

theorem mergeLoop_spec (ds : List (List Char)) :
    ∀ (docs : List (List Char)) (total : Nat) (current : List (List Char)),
    (∀ p ∈ ds, p.length < 500) →
    total = (current.map List.length).sum →
    total ≤ 500 →
    (∀ c ∈ docs, c.length ≤ 500) →
    ∀ c ∈ mergeLoop ds docs total current, c.length ≤ 500 := by
  induction ds with
  | nil =>
    intro docs total current _ ht hb hd c hc
    unfold mergeLoop at hc
    by_cases he : (joinStrip current).isEmpty
    · rw [if_pos he] at hc
      exact hd c hc
    · rw [if_neg he] at hc
      rcases List.mem_append.1 hc with h | h
      · exact hd c h
      · have hcj : c = joinStrip current := by simpa using h
        subst hcj
        calc (joinStrip current).length ≤ (current.map List.length).sum := joinStrip_le _
          _ = total := ht.symm
          _ ≤ 500 := hb
  | cons d ds ih =>
    intro docs total current hds ht hb hd c hc
    have hdlen : d.length < 500 := hds d (List.mem_cons_self _ _)
    have hds2 : ∀ p ∈ ds, p.length < 500 := fun p hp => hds p (List.mem_cons_of_mem _ hp)
    unfold mergeLoop at hc
    by_cases hover : 500 < total + d.length
    · rw [if_pos hover] at hc
      simp only [] at hc
      have hd2 : ∀ c2 ∈ (if (joinStrip current).isEmpty then docs
          else docs ++ [joinStrip current]), c2.length ≤ 500 := by
        intro c2 hc2
        by_cases hje : (joinStrip current).isEmpty
        · rw [if_pos hje] at hc2
          exact hd c2 hc2
        · rw [if_neg hje] at hc2
          rcases List.mem_append.1 hc2 with h | h
          · exact hd c2 h
          · have hcj : c2 = joinStrip current := by simpa using h
            subst hcj
            calc (joinStrip current).length ≤ (current.map List.length).sum :=
                  joinStrip_le _
              _ = total := ht.symm
              _ ≤ 500 := hb
      by_cases hce : current.isEmpty
      · simp only [if_pos hce] at hc
        have hcnil : current = [] := List.isEmpty_iff.1 hce
        subst hcnil
        simp only [List.map_nil, List.sum_nil] at ht
        refine ih _ _ _ hds2 ?_ ?_ ?_ c hc
        · simp [ht]
        · omega
        · intro c2 hc2
          exact hd2 c2 hc2
      · simp only [if_neg hce] at hc
        obtain ⟨hsum, hle, hfit⟩ := popLoop_spec d.length current total ht
        refine ih _ _ _ hds2 ?_ ?_ ?_ c hc
        · simp [hsum]
        · rcases hfit with h | h
          · omega
          · omega
        · intro c2 hc2
          exact hd2 c2 hc2
    · rw [if_neg hover] at hc
      refine ih _ _ _ hds2 ?_ ?_ hd c hc
      · simp [ht]
      · omega

theorem mergeSplits_spec (splits : List (List Char))
    (h : ∀ p ∈ splits, p.length < 500) :
    ∀ c ∈ mergeSplits splits, c.length ≤ 500 :=
  mergeLoop_spec splits [] 0 [] h (by simp) (by omega) (by simp)

theorem goPieces_spec (recur : List Char → List (List Char)) (hasNew : Bool)
    (pieces : List (List Char)) :
    ∀ goods : List (List Char),
    (∀ p ∈ goods, p.length < 500) →
    (∀ s ∈ pieces, ¬ s.length < 500 →
       (hasNew = true → ∀ c ∈ recur s, chunkOk c) ∧
       (hasNew = false → tail1Clean s)) →
    ∀ c ∈ goPieces recur hasNew goods pieces, chunkOk c := by
  induction pieces with
  | nil =>
    intro goods hg _ c hc
    unfold goPieces at hc
    by_cases he : goods.isEmpty
    · rw [if_pos he] at hc
      exact absurd hc (List.not_mem_nil c)
    · rw [if_neg he] at hc
      refine Or.inl (mergeSplits_spec goods.reverse ?_ c hc)
      intro p hp
      exact hg p (List.mem_reverse.1 hp)
  | cons s rest ih =>
    intro goods hg hp c hc
    have hrest : ∀ s2 ∈ rest, ¬ s2.length < 500 →
        (hasNew = true → ∀ c2 ∈ recur s2, chunkOk c2) ∧
        (hasNew = false → tail1Clean s2) :=
      fun s2 h2 => hp s2 (List.mem_cons_of_mem _ h2)
    unfold goPieces at hc
    by_cases hgood : s.length < 500
    · rw [if_pos hgood] at hc
      refine ih (s :: goods) ?_ hrest c hc
      intro p hpg
      rcases List.mem_cons.1 hpg with h | h
      · exact h ▸ hgood
      · exact hg p h
    · rw [if_neg hgood] at hc
      rcases List.mem_append.1 hc with h1 | h1
      · rcases List.mem_append.1 h1 with h2 | h2
        · by_cases he : goods.isEmpty
          · rw [if_pos he] at h2
            exact absurd h2 (List.not_mem_nil c)
          · rw [if_neg he] at h2
            refine Or.inl (mergeSplits_spec goods.reverse ?_ c h2)
            intro p hpr
            exact hg p (List.mem_reverse.1 hpr)
        · have hs := hp s (List.mem_cons_self _ _) hgood
          by_cases hn : hasNew = true
          · have h2b : c ∈ recur s := by
              rw [hn] at h2
              simpa using h2
            exact hs.1 hn c h2b
          · have hnf : hasNew = false := by
              revert hn
              cases hasNew <;> simp
            have hcs : c = s := by
              rw [hnf] at h2
              simpa using h2
            subst hcs
            exact Or.inr (hs.2 hnf)
      · exact ih [] (by simp) hrest c h1

theorem splitChar_ne_nil (sep : Char) (l : List Char) : splitChar sep l ≠ [] := by
  cases l with
  | nil => simp [splitChar]
  | cons c cs =>
    unfold splitChar
    cases h : splitChar sep cs with
    | nil => simp
    | cons h2 t2 => by_cases hc : c = sep <;> simp [hc]

theorem splitChar_subset (sep : Char) (l : List Char) :
    ∀ q ∈ splitChar sep l, ∀ x ∈ q, x ∈ l := by
  induction l with
  | nil =>
    intro q hq x hx
    simp [splitChar] at hq
    subst hq
    simp at hx
  | cons c cs ih =>
    intro q hq x hx
    unfold splitChar at hq
    cases hsc : splitChar sep cs with
    | nil => exact absurd hsc (splitChar_ne_nil sep cs)
    | cons h2 t2 =>
      rw [hsc] at hq
      simp only [] at hq
      by_cases hc : c = sep
      · rw [if_pos hc] at hq
        rcases List.mem_cons.1 hq with h1 | h1
        · subst h1
          exact absurd hx (List.not_mem_nil x)
        · have hq2 : q ∈ splitChar sep cs := by rw [hsc]; exact h1
          exact List.mem_cons_of_mem _ (ih q hq2 x hx)
      · rw [if_neg hc] at hq
        rcases List.mem_cons.1 hq with h1 | h1
        · subst h1
          rcases List.mem_cons.1 hx with h3 | h3
          · exact h3 ▸ List.mem_cons_self _ _
          · have hh2 : h2 ∈ splitChar sep cs := by rw [hsc]; exact List.mem_cons_self _ _
            exact List.mem_cons_of_mem _ (ih h2 hh2 x h3)
        · have hq2 : q ∈ splitChar sep cs := by rw [hsc]; exact List.mem_cons_of_mem _ h1
          exact List.mem_cons_of_mem _ (ih q hq2 x hx)

theorem splitChar_no_sep (sep : Char) (l : List Char) :
    ∀ q ∈ splitChar sep l, ∀ x ∈ q, x ≠ sep := by
  induction l with
  | nil =>
    intro q hq x hx
    simp [splitChar] at hq
    subst hq
    simp at hx
  | cons c cs ih =>
    intro q hq x hx
    unfold splitChar at hq
    cases hsc : splitChar sep cs with
    | nil => exact absurd hsc (splitChar_ne_nil sep cs)
    | cons h2 t2 =>
      rw [hsc] at hq
      simp only [] at hq
      by_cases hc : c = sep
      · rw [if_pos hc] at hq
        rcases List.mem_cons.1 hq with h1 | h1
        · subst h1
          exact absurd hx (List.not_mem_nil x)
        · have hq2 : q ∈ splitChar sep cs := by rw [hsc]; exact h1
          exact ih q hq2 x hx
      · rw [if_neg hc] at hq
        rcases List.mem_cons.1 hq with h1 | h1
        · subst h1
          rcases List.mem_cons.1 hx with h3 | h3
          · exact h3 ▸ hc
          · have hh2 : h2 ∈ splitChar sep cs := by rw [hsc]; exact List.mem_cons_self _ _
            exact ih h2 hh2 x h3
        · have hq2 : q ∈ splitChar sep cs := by rw [hsc]; exact List.mem_cons_of_mem _ h1
          exact ih q hq2 x hx

/-- The head piece of a character split starts at the text's first character,
so its later characters come from the text's tail; every other piece lies
entirely in the tail. -/
theorem splitChar_head_tail1 (sep : Char) (l : List Char) (h : List Char)
    (t : List (List Char)) (he : splitChar sep l = h :: t) :
    (∀ x ∈ h.drop 1, x ∈ l.drop 1) ∧ (∀ q ∈ t, ∀ x ∈ q, x ∈ l.drop 1) := by
  cases l with
  | nil =>
    simp [splitChar] at he
    obtain ⟨he1, he2⟩ := he
    subst he1
    subst he2
    constructor
    · intro x hx; simp at hx
    · intro q hq; simp at hq
  | cons c cs =>
    unfold splitChar at he
    cases hsc : splitChar sep cs with
    | nil => exact absurd hsc (splitChar_ne_nil sep cs)
    | cons h2 t2 =>
      rw [hsc] at he
      simp only [] at he
      by_cases hc : c = sep
      · rw [if_pos hc] at he
        injection he with he1 he2
        subst he1
        subst he2
        constructor
        · intro x hx
          simp at hx
        · intro q hq x hx
          have hq2 : q ∈ splitChar sep cs := by rw [hsc]; exact hq
          exact splitChar_subset sep cs q hq2 x hx
      · rw [if_neg hc] at he
        injection he with he1 he2
        subst he1
        subst he2
        constructor
        · intro x hx
          have hh2 : h2 ∈ splitChar sep cs := by rw [hsc]; exact List.mem_cons_self _ _
          exact splitChar_subset sep cs h2 hh2 x (by simpa using hx)
        · intro q hq x hx
          have hq2 : q ∈ splitChar sep cs := by rw [hsc]; exact List.mem_cons_of_mem _ hq
          exact splitChar_subset sep cs q hq2 x hx

theorem keepSep_mem (sep : List Char) (parts : List (List Char)) :
    ∀ piece ∈ keepSepPieces sep parts,
      ∃ h t, parts = h :: t ∧ (piece = h ∨ ∃ q ∈ t, piece = sep ++ q) := by
  intro piece hp
  unfold keepSepPieces at hp
  cases parts with
  | nil => simp at hp
  | cons p ps =>
    refine ⟨p, ps, rfl, ?_⟩
    rw [List.mem_filter] at hp
    rcases List.mem_cons.1 hp.1 with h | h
    · exact Or.inl h
    · obtain ⟨q, hq, he⟩ := List.mem_map.1 h
      exact Or.inr ⟨q, hq, he.symm⟩

/-- When the text has no line break past its first character, every piece of
its space split (with the separator reattached) is clean past its own first
character. -/
theorem space_pieces_clean (text : List Char)
    (hnl : ∀ x ∈ text.drop 1, x ≠ '\n') :
    ∀ piece ∈ keepSepPieces [' '] (splitChar ' ' text), tail1Clean piece := by
  intro piece hp
  obtain ⟨h, t, hparts, hcase⟩ := keepSep_mem _ _ piece hp
  have hht := splitChar_head_tail1 ' ' text h t hparts
  rcases hcase with h1 | ⟨q, hq, h1⟩
  · intro x hx
    rw [h1] at hx
    have hxh : x ∈ h := List.drop_subset 1 h hx
    constructor
    · refine splitChar_no_sep ' ' text h ?_ x hxh
      rw [hparts]
      exact List.mem_cons_self _ _
    · exact hnl x (hht.1 x hx)
  · subst h1
    intro x hx
    have hxq : x ∈ q := by simpa using hx
    constructor
    · refine splitChar_no_sep ' ' text q ?_ x hxq
      rw [hparts]
      exact List.mem_cons_of_mem _ hq
    · exact hnl x (hht.2 q hq x hxq)

/-- Pieces of a line-break split contain no line break past their own first
character. -/
theorem nl_pieces_noNL (text : List Char) :
    ∀ piece ∈ keepSepPieces ['\n'] (splitChar '\n' text),
      ∀ x ∈ piece.drop 1, x ≠ '\n' := by
  intro piece hp
  obtain ⟨h, t, hparts, hcase⟩ := keepSep_mem _ _ piece hp
  rcases hcase with h1 | ⟨q, hq, h1⟩
  · intro x hx
    rw [h1] at hx
    refine splitChar_no_sep '\n' text h ?_ x (List.drop_subset 1 h hx)
    rw [hparts]
    exact List.mem_cons_self _ _
  · subst h1
    intro x hx
    have hxq : x ∈ q := by simpa using hx
    refine splitChar_no_sep '\n' text q ?_ x hxq
    rw [hparts]
    exact List.mem_cons_of_mem _ hq

theorem contains_single (c : Char) (l : List Char)
    (h : containsSeq [c] l = false) : ∀ x ∈ l, x ≠ c := by
  induction l with
  | nil => simp
  | cons d ds ih =>
    unfold containsSeq at h
    rw [Bool.or_eq_false_iff] at h
    intro x hx
    rcases List.mem_cons.1 hx with h1 | h1
    · subst h1
      have hpre := h.1
      simp [List.isPrefixOf] at hpre
      exact fun h2 => hpre h2.symm
    · exact ih h.2 x h1

theorem pickSep_space (text : List Char) : pickSep text [[' ']] = ([' '], []) := by
  unfold pickSep
  split <;> rfl

theorem pickSep_nl_pos (text : List Char) (h : containsSeq ['\n'] text = true) :
    pickSep text [['\n'], [' ']] = (['\n'], [[' ']]) := by
  unfold pickSep
  rw [if_pos h]

theorem pickSep_nl_neg (text : List Char) (h : containsSeq ['\n'] text = false) :
    pickSep text [['\n'], [' ']] = ([' '], []) := by
  unfold pickSep
  rw [if_neg (by simp [h])]
  exact pickSep_space text

theorem pickSep_top_nn (text : List Char)
    (h : containsSeq ['\n', '\n'] text = true) :
    pickSep text [['\n', '\n'], ['\n'], [' ']] = (['\n', '\n'], [['\n'], [' ']]) := by
  unfold pickSep
  rw [if_pos h]

theorem pickSep_top_nl (text : List Char)
    (h2 : containsSeq ['\n', '\n'] text = false)
    (h1 : containsSeq ['\n'] text = true) :
    pickSep text [['\n', '\n'], ['\n'], [' ']] = (['\n'], [[' ']]) := by
  unfold pickSep
  rw [if_neg (by simp [h2])]
  exact pickSep_nl_pos text h1

theorem pickSep_top_sp (text : List Char)
    (h2 : containsSeq ['\n', '\n'] text = false)
    (h1 : containsSeq ['\n'] text = false) :
    pickSep text [['\n', '\n'], ['\n'], [' ']] = ([' '], []) := by
  unfold pickSep
  rw [if_neg (by simp [h2])]
  exact pickSep_nl_neg text h1

theorem level_space (fuel : Nat) (text : List Char)
    (hnl : ∀ x ∈ text.drop 1, x ≠ '\n') :
    ∀ c ∈ splitTextF (fuel + 1) [[' ']] text, chunkOk c := by
  intro c hc
  have hexp : splitTextF (fuel + 1) [[' ']] text =
      goPieces (fun s => splitTextF fuel (pickSep text [[' ']]).2 s)
        (!(pickSep text [[' ']]).2.isEmpty) []
        (keepSepPieces (pickSep text [[' ']]).1
          (splitBySep (pickSep text [[' ']]).1 text)) := rfl
  rw [hexp, pickSep_space text] at hc
  simp only [List.isEmpty_nil, Bool.not_true] at hc
  refine goPieces_spec _ _ _ [] (by simp) ?_ c hc
  intro s hs _
  constructor
  · intro habs
    exact absurd habs (by simp)
  · intro _
    exact space_pieces_clean text hnl s hs

theorem level_nl (fuel : Nat) (text : List Char) :
    ∀ c ∈ splitTextF (fuel + 1 + 1) [['\n'], [' ']] text, chunkOk c := by
  intro c hc
  have hexp : splitTextF (fuel + 1 + 1) [['\n'], [' ']] text =
      goPieces (fun s => splitTextF (fuel + 1) (pickSep text [['\n'], [' ']]).2 s)
        (!(pickSep text [['\n'], [' ']]).2.isEmpty) []
        (keepSepPieces (pickSep text [['\n'], [' ']]).1
          (splitBySep (pickSep text [['\n'], [' ']]).1 text)) := rfl
  rw [hexp] at hc
  by_cases hn : containsSeq ['\n'] text = true
  · rw [pickSep_nl_pos text hn] at hc
    simp only [List.isEmpty_cons, Bool.not_false] at hc
    refine goPieces_spec _ _ _ [] (by simp) ?_ c hc
    intro s hs _
    constructor
    · intro _ c2 hc2
      exact level_space fuel s (nl_pieces_noNL text s hs) c2 hc2
    · intro habs
      exact absurd habs (by simp)
  · have hnf : containsSeq ['\n'] text = false := by
      revert hn
      cases containsSeq ['\n'] text <;> simp
    rw [pickSep_nl_neg text hnf] at hc
    simp only [List.isEmpty_nil, Bool.not_true] at hc
    refine goPieces_spec _ _ _ [] (by simp) ?_ c hc
    intro s hs _
    constructor
    · intro habs
      exact absurd habs (by simp)
    · intro _
      refine space_pieces_clean text ?_ s hs
      intro x hx
      exact contains_single '\n' text hnf x (List.drop_subset 1 text hx)

theorem level_top (text : List Char) :
    ∀ c ∈ splitTextF 3 [['\n', '\n'], ['\n'], [' ']] text, chunkOk c := by
  intro c hc
  have hexp : splitTextF 3 [['\n', '\n'], ['\n'], [' ']] text =
      goPieces (fun s => splitTextF 2 (pickSep text [['\n', '\n'], ['\n'], [' ']]).2 s)
        (!(pickSep text [['\n', '\n'], ['\n'], [' ']]).2.isEmpty) []
        (keepSepPieces (pickSep text [['\n', '\n'], ['\n'], [' ']]).1
          (splitBySep (pickSep text [['\n', '\n'], ['\n'], [' ']]).1 text)) := rfl
  rw [hexp] at hc
  by_cases h2 : containsSeq ['\n', '\n'] text = true
  · rw [pickSep_top_nn text h2] at hc
    simp only [List.isEmpty_cons, Bool.not_false] at hc
    refine goPieces_spec _ _ _ [] (by simp) ?_ c hc
    intro s _ _
    constructor
    · intro _ c2 hc2
      exact level_nl 0 s c2 hc2
    · intro habs
      exact absurd habs (by simp)
  · have h2f : containsSeq ['\n', '\n'] text = false := by
      revert h2
      cases containsSeq ['\n', '\n'] text <;> simp
    by_cases h1 : containsSeq ['\n'] text = true
    · rw [pickSep_top_nl text h2f h1] at hc
      simp only [List.isEmpty_cons, Bool.not_false] at hc
      refine goPieces_spec _ _ _ [] (by simp) ?_ c hc
      intro s hs _
      constructor
      · intro _ c2 hc2
        exact level_space 1 s (nl_pieces_noNL text s hs) c2 hc2
      · intro habs
        exact absurd habs (by simp)
    · have h1f : containsSeq ['\n'] text = false := by
        revert h1
        cases containsSeq ['\n'] text <;> simp
      rw [pickSep_top_sp text h2f h1f] at hc
      simp only [List.isEmpty_nil, Bool.not_true] at hc
      refine goPieces_spec _ _ _ [] (by simp) ?_ c hc
      intro s hs _
      constructor
      · intro habs
        exact absurd habs (by simp)
      · intro _
        refine space_pieces_clean text ?_ s hs
        intro x hx
        exact contains_single '\n' text h1f x (List.drop_subset 1 text hx)

theorem containsSeq_false (s0 : Char) (srest : List Char) (l : List Char)
    (h : ∀ x ∈ l, x ≠ s0) : containsSeq (s0 :: srest) l = false := by
  induction l with
  | nil => rfl
  | cons d ds ih =>
    unfold containsSeq
    rw [Bool.or_eq_false_iff]
    constructor
    · have hd : d ≠ s0 := h d (List.mem_cons_self _ _)
      simp [List.isPrefixOf]
      intro h2
      exact absurd h2.symm hd
    · exact ih (fun x hx => h x (List.mem_cons_of_mem _ hx))

theorem splitChar_cons_sep (sep : Char) (l : List Char) :
    splitChar sep (sep :: l) = [] :: splitChar sep l := by
  cases hsc : splitChar sep l with
  | nil => exact absurd hsc (splitChar_ne_nil sep l)
  | cons h2 t2 =>
    have hstep : splitChar sep (sep :: l) =
        (if sep = sep then [] :: h2 :: t2 else (sep :: h2) :: t2) := by
      unfold splitChar
      rw [hsc]
    rw [hstep, if_pos rfl]

theorem splitChar_cons_ne (sep c : Char) (l : List Char) (h2 : List Char)
    (t2 : List (List Char)) (hc : ¬ c = sep) (hsc : splitChar sep l = h2 :: t2) :
    splitChar sep (c :: l) = (c :: h2) :: t2 := by
  have hstep : splitChar sep (c :: l) =
      (if c = sep then [] :: h2 :: t2 else (c :: h2) :: t2) := by
    unfold splitChar
    rw [hsc]
  rw [hstep, if_neg hc]

theorem splitChar_single (sep : Char) (l : List Char)
    (h : ∀ x ∈ l, x ≠ sep) : splitChar sep l = [l] := by
  induction l with
  | nil => rfl
  | cons c cs ih =>
    exact splitChar_cons_ne sep c cs cs []
      (h c (List.mem_cons_self _ _))
      (ih fun x hx => h x (List.mem_cons_of_mem _ hx))

theorem splitChar_append (sep : Char) (l1 l2 : List Char)
    (h : ∀ x ∈ l1, x ≠ sep) :
    splitChar sep (l1 ++ sep :: l2) = l1 :: splitChar sep l2 := by
  induction l1 with
  | nil =>
    simp only [List.nil_append]
    exact splitChar_cons_sep sep l2
  | cons c cs ih =>
    simp only [List.cons_append]
    cases hsc : splitChar sep (cs ++ sep :: l2) with
    | nil => exact absurd hsc (splitChar_ne_nil sep _)
    | cons h2 t2 =>
      have hih := ih fun x hx => h x (List.mem_cons_of_mem _ hx)
      rw [hsc] at hih
      injection hih with hih1 hih2
      rw [splitChar_cons_ne sep c _ h2 t2 (h c (List.mem_cons_self _ _)) hsc,
          hih1, hih2]

theorem stripChars_cons_ws (c : Char) (l : List Char)
    (h : c.isWhitespace = true) : stripChars (c :: l) = stripChars l := by
  unfold stripChars
  rw [show List.dropWhile Char.isWhitespace (c :: l) =
        List.dropWhile Char.isWhitespace l from by simp [List.dropWhile, h]]

theorem stripChars_eq_self (l : List Char) (c1 c2 : Char) (t1 t2 : List Char)
    (h1 : l = c1 :: t1) (h2 : l.reverse = c2 :: t2)
    (hc1 : c1.isWhitespace = false) (hc2 : c2.isWhitespace = false) :
    stripChars l = l := by
  unfold stripChars
  rw [show List.dropWhile Char.isWhitespace l = l from by rw [h1]; simp [List.dropWhile, hc1]]
  rw [h2]
  rw [show List.dropWhile Char.isWhitespace (c2 :: t2) = c2 :: t2 from by
        simp [List.dropWhile, hc2]]
  rw [← h2, List.reverse_reverse]

theorem stripChars_replicate (n : Nat) (c : Char) (hc : c.isWhitespace = false)
    (hn : 0 < n) : stripChars (List.replicate n c) = List.replicate n c := by
  obtain ⟨m, rfl⟩ : ∃ m, n = m + 1 := ⟨n - 1, by omega⟩
  refine stripChars_eq_self _ c c (List.replicate m c) (List.replicate m c) ?_ ?_ hc hc
  · rw [List.replicate_succ]
  · rw [List.reverse_replicate, List.replicate_succ]

theorem splitText_aRun : split_text aRun = [aRun] := by
  have hmem : ∀ x ∈ aRun, x = 'a' := fun x hx => List.eq_of_mem_replicate hx
  have hnn : containsSeq ['\n', '\n'] aRun = false :=
    containsSeq_false _ _ _ (fun x hx => by rw [hmem x hx]; decide)
  have hnl : containsSeq ['\n'] aRun = false :=
    containsSeq_false _ _ _ (fun x hx => by rw [hmem x hx]; decide)
  have hsplit : splitChar ' ' aRun = [aRun] :=
    splitChar_single _ _ (fun x hx => by rw [hmem x hx]; decide)
  have hne : aRun.isEmpty = false := by
    rw [show aRun = 'a' :: List.replicate 500 'a' from rfl]
    rfl
  have hlen : aRun.length = 501 := by
    rw [show aRun = List.replicate 501 'a' from rfl, List.length_replicate]
  have hstrip : stripChars aRun = aRun :=
    stripChars_replicate 501 'a' (by decide) (by omega)
  have hexp : split_text aRun =
      (goPieces (fun s => splitTextF 2 (pickSep aRun [['\n', '\n'], ['\n'], [' ']]).2 s)
        (!(pickSep aRun [['\n', '\n'], ['\n'], [' ']]).2.isEmpty) []
        (keepSepPieces (pickSep aRun [['\n', '\n'], ['\n'], [' ']]).1
          (splitBySep (pickSep aRun [['\n', '\n'], ['\n'], [' ']]).1 aRun))).filter
        (fun c => !(stripChars c).isEmpty) := rfl
  rw [hexp, pickSep_top_sp aRun hnn hnl]
  simp only [List.isEmpty_nil, Bool.not_true]
  rw [show splitBySep [' '] aRun = splitChar ' ' aRun from rfl, hsplit]
  rw [show keepSepPieces [' '] [aRun] = [aRun] from by unfold keepSepPieces; simp [hne]]
  rw [show goPieces (fun s => splitTextF 2 [] s) false [] [aRun] = [aRun] from by
        unfold goPieces
        rw [if_neg (by rw [hlen]; omega)]
        unfold goPieces
        rfl]
  rw [List.filter_cons,
      show (!(stripChars aRun).isEmpty) = true from by rw [hstrip, hne]; rfl,
      if_pos rfl, List.filter_nil]

theorem splitText_abc :
    split_text abcText =
      [List.replicate 400 'a', List.replicate 400 'b', ' ' :: List.replicate 501 'c'] := by
  have hnonl : ∀ x ∈ abcText, x ≠ '\n' := by
    intro x hx
    have hone : x = 'a' ∨ x = ' ' ∨ x = 'b' ∨ x = 'c' := by
      unfold abcText at hx
      rcases List.mem_append.1 hx with h | h
      · rcases List.mem_append.1 h with h | h
        · rcases List.mem_append.1 h with h | h
          · rcases List.mem_append.1 h with h | h
            · exact Or.inl (List.eq_of_mem_replicate h)
            · exact Or.inr (Or.inl (List.mem_singleton.1 h))
          · exact Or.inr (Or.inr (Or.inl (List.eq_of_mem_replicate h)))
        · exact Or.inr (Or.inl (List.mem_singleton.1 h))
      · exact Or.inr (Or.inr (Or.inr (List.eq_of_mem_replicate h)))
    rcases hone with h | h | h | h <;> rw [h] <;> decide
  have hnn : containsSeq ['\n', '\n'] abcText = false := containsSeq_false _ _ _ hnonl
  have hnl : containsSeq ['\n'] abcText = false := containsSeq_false _ _ _ hnonl
  have hshape : abcText =
      List.replicate 400 'a' ++ ' ' ::
        (List.replicate 400 'b' ++ ' ' :: List.replicate 501 'c') := by
    unfold abcText
    simp only [List.append_assoc, List.singleton_append]
    rfl
  have hsplit : splitChar ' ' abcText =
      [List.replicate 400 'a', List.replicate 400 'b', List.replicate 501 'c'] := by
    rw [hshape]
    rw [splitChar_append ' ' (List.replicate 400 'a') _
          (fun x hx => by rw [List.eq_of_mem_replicate hx]; decide)]
    rw [splitChar_append ' ' (List.replicate 400 'b') _
          (fun x hx => by rw [List.eq_of_mem_replicate hx]; decide)]
    rw [splitChar_single ' ' (List.replicate 501 'c')
          (fun x hx => by rw [List.eq_of_mem_replicate hx]; decide)]
  have hneA : (List.replicate 400 'a').isEmpty = false := by
    rw [show List.replicate 400 'a' = 'a' :: List.replicate 399 'a' from rfl]
    rfl
  have hKeep : keepSepPieces [' ']
      [List.replicate 400 'a', List.replicate 400 'b', List.replicate 501 'c'] =
      [List.replicate 400 'a', ' ' :: List.replicate 400 'b',
       ' ' :: List.replicate 501 'c'] := by
    have e1 : (!(List.replicate 400 'a').isEmpty) = true := by rw [hneA]; rfl
    have e2 : (!(' ' :: List.replicate 400 'b').isEmpty) = true := rfl
    have e3 : (!(' ' :: List.replicate 501 'c').isEmpty) = true := rfl
    unfold keepSepPieces
    simp only [List.map_cons, List.map_nil, List.singleton_append, List.filter_cons,
      List.filter_nil, e1, e2, e3, if_true]
  have hstripA : stripChars (List.replicate 400 'a') = List.replicate 400 'a' :=
    stripChars_replicate 400 'a' (by decide) (by omega)
  have hstripB : stripChars (List.replicate 400 'b') = List.replicate 400 'b' :=
    stripChars_replicate 400 'b' (by decide) (by omega)
  have hstripC : stripChars (List.replicate 501 'c') = List.replicate 501 'c' :=
    stripChars_replicate 501 'c' (by decide) (by omega)
  have hjsA : joinStrip [List.replicate 400 'a'] = List.replicate 400 'a' := by
    unfold joinStrip
    simp only [List.flatten_cons, List.flatten_nil, List.append_nil]
    exact hstripA
  have hjsB : joinStrip [' ' :: List.replicate 400 'b'] = List.replicate 400 'b' := by
    unfold joinStrip
    simp only [List.flatten_cons, List.flatten_nil, List.append_nil]
    rw [stripChars_cons_ws ' ' _ (by decide)]
    exact hstripB
  have hneA : (List.replicate 400 'a').isEmpty = false := by
    rw [show List.replicate 400 'a' = 'a' :: List.replicate 399 'a' from rfl]; rfl
  have hneB : (List.replicate 400 'b').isEmpty = false := by
    rw [show List.replicate 400 'b' = 'b' :: List.replicate 399 'b' from rfl]; rfl
  have hneC : (List.replicate 501 'c').isEmpty = false := by
    rw [show List.replicate 501 'c' = 'c' :: List.replicate 500 'c' from rfl]; rfl
  have hlenA : (List.replicate 400 'a').length = 400 := by
    rw [List.length_replicate]
  have hlenB : (' ' :: List.replicate 400 'b').length = 401 := by
    rw [List.length_cons, List.length_replicate]
  have hlenC : (' ' :: List.replicate 501 'c').length = 502 := by
    rw [List.length_cons, List.length_replicate]
  have hpop : popLoop (' ' :: List.replicate 400 'b').length
      [List.replicate 400 'a'] (0 + (List.replicate 400 'a').length) = ([], 0) := by
    unfold popLoop
    rw [if_pos (by rw [hlenA]; omega)]
    simp only []
    unfold popLoop
    rw [if_neg (by rw [hlenA, hlenB]; omega)]
    rw [hlenA]
  have hmerge : mergeSplits [List.replicate 400 'a', ' ' :: List.replicate 400 'b'] =
      [List.replicate 400 'a', List.replicate 400 'b'] := by
    have eIs : (joinStrip [List.replicate 400 'a']).isEmpty = false := by
      rw [hjsA]; exact hneA
    have eIs2 : (joinStrip [' ' :: List.replicate 400 'b']).isEmpty = false := by
      rw [hjsB]; exact hneB
    unfold mergeSplits
    unfold mergeLoop
    rw [if_neg (by rw [hlenA]; omega)]
    simp only [List.nil_append]
    unfold mergeLoop
    rw [if_pos (by rw [hlenA, hlenB]; omega)]
    simp only [List.isEmpty_cons, Bool.false_eq_true, if_false, eIs, hpop,
      List.nil_append]
    unfold mergeLoop
    simp only [eIs2, Bool.false_eq_true, if_false, hjsA, hjsB,
      List.cons_append, List.nil_append]
    rw [hneB]
    simp only [Bool.false_eq_true, if_false]
  have hgo : goPieces (fun s => splitTextF 2 [] s) false []
      [List.replicate 400 'a', ' ' :: List.replicate 400 'b',
       ' ' :: List.replicate 501 'c'] =
      [List.replicate 400 'a', List.replicate 400 'b', ' ' :: List.replicate 501 'c'] := by
    unfold goPieces
    rw [if_pos (by rw [hlenA]; omega)]
    unfold goPieces
    rw [if_pos (by rw [hlenB]; omega)]
    unfold goPieces
    rw [if_neg (by rw [hlenC]; omega)]
    unfold goPieces
    simp only [List.isEmpty_nil, List.isEmpty_cons, Bool.false_eq_true, if_false, if_true]
    rw [show ([' ' :: List.replicate 400 'b', List.replicate 400 'a'] :
          List (List Char)).reverse =
          [List.replicate 400 'a', ' ' :: List.replicate 400 'b'] from rfl]
    rw [hmerge]
    rfl
  have hexp : split_text abcText =
      (goPieces (fun s => splitTextF 2 (pickSep abcText [['\n', '\n'], ['\n'], [' ']]).2 s)
        (!(pickSep abcText [['\n', '\n'], ['\n'], [' ']]).2.isEmpty) []
        (keepSepPieces (pickSep abcText [['\n', '\n'], ['\n'], [' ']]).1
          (splitBySep (pickSep abcText [['\n', '\n'], ['\n'], [' ']]).1 abcText))).filter
        (fun c => !(stripChars c).isEmpty) := rfl
  rw [hexp, pickSep_top_sp abcText hnn hnl]
  simp only [List.isEmpty_nil, Bool.not_true]
  rw [show splitBySep [' '] abcText = splitChar ' ' abcText from rfl, hsplit, hKeep, hgo]
  rw [List.filter_cons,
      show (!(stripChars (List.replicate 400 'a')).isEmpty) = true from by
        rw [hstripA, hneA]; rfl,
      if_pos rfl]
  rw [List.filter_cons,
      show (!(stripChars (List.replicate 400 'b')).isEmpty) = true from by
        rw [hstripB, hneB]; rfl,
      if_pos rfl]
  rw [List.filter_cons,
      show (!(stripChars (' ' :: List.replicate 501 'c')).isEmpty) = true from by
        rw [stripChars_cons_ws ' ' _ (by decide), hstripC, hneC]; rfl,
      if_pos rfl, List.filter_nil]

set_option maxRecDepth 4000 in
/-- No suffix of the first produced chunk of `abcText` of length at least
100 reappears as a prefix of the second chunk: the configured 100-character
overlap is entirely absent between these consecutive chunks. -/
theorem noOverlap_ab :
    ((List.range 401).all fun k =>
        !(decide (100 ≤ k) &&
          ((List.replicate 400 'a').drop (400 - k) ==
            (List.replicate 400 'b').take k))) = true := by
  decide

/-- **C10 counterexample.** The claimed hard bounds fail: a 501-character
text with no separator is returned as a single chunk of length 501 > 500, and
on `abcText` the splitter produces three chunks of lengths 400, 400 and 502 —
the third exceeds 500, and the first two consecutive chunks (all `a`s, then
all `b`s, the second not the final chunk) share no overlap content at all: no
suffix of the first of length at least 100 is a prefix of the second. -/
theorem split_text_bound_counterexample :
    500 ≤ aRun.length ∧
    split_text aRun = [aRun] ∧
    500 < aRun.length ∧
    500 ≤ abcText.length ∧
    split_text abcText =
      [List.replicate 400 'a', List.replicate 400 'b',
       ' ' :: List.replicate 501 'c'] ∧
    ((List.range 401).all fun k =>
        !(decide (100 ≤ k) &&
          ((List.replicate 400 'a').drop (400 - k) ==
            (List.replicate 400 'b').take k))) = true := by
  have hla : aRun.length = 501 := by
    rw [show aRun = List.replicate 501 'a' from rfl, List.length_replicate]
  have hlt : abcText.length = 1303 := by
    unfold abcText
    simp only [List.length_append, List.length_replicate, List.length_singleton]
  exact ⟨by omega, splitText_aRun, by omega, by omega, splitText_abc, noOverlap_ab⟩

/-- **C10 (amended).** Every chunk `split_text` produces either has length at
most 500 or is an unsplittable run (no space and no line break occurs past
its first character, which may be the separator the splitter attached);
overlap between consecutive chunks is best-effort only and not guaranteed;
and no produced chunk is empty or whitespace-only after trimming. -/
theorem split_text_chunks (text : List Char) :
    ∀ c ∈ split_text text, chunkOk c ∧ (stripChars c).isEmpty = false := by
  intro c hc
  unfold split_text at hc
  rw [List.mem_filter] at hc
  refine ⟨level_top text c hc.1, ?_⟩
  simpa using hc.2

/-- Witness for C10 (amended): the single chunk of a short text is within
the size bound and non-blank. -/
theorem split_text_chunks_witness :
    chunkOk "hello world".data ∧ (stripChars "hello world".data).isEmpty = false :=
  split_text_chunks "hello world".data "hello world".data (by decide)

end ChromaBridge
